import Mathlib

/-!
Verification of the cross-catalog track-matching engine in
`src/backend/main.py` (tokenizer `normalize_string` / `create_token_set`,
scorer `subset_similarity`, classifier and ranker `process_results`, and
orchestrator `find_equivalent_links`).

The embedding is a shallow one:

* Python strings are Lean `String`s; the regex character classes `\w` and
  `\s`, `str.lower`, `str.upper` and `str.strip` are modelled on their
  ASCII fragment (`Char.isAlphanum`, `'_'`, `Char.isWhitespace`,
  `Char.toLower`, `Char.toUpper`), which is the range exercised by the
  matcher's metadata.
* Python floats are modelled as exact rationals (`ℚ`).  All similarity
  values are small-denominator rationals and all thresholds are exactly
  representable, so float rounding cannot flip any comparison made by the
  code.
* Python truthiness on optional numbers (`if source_duration_ms and
  track_duration:`) is modelled by `truthyNat`: `None` and `0` are falsy.
* The per-request mutable dicts `links` / `alternatives` are modelled as
  association lists built by explicit state passing; the three concrete
  catalog providers are modelled by the candidate lists their `search`
  calls return (a failing provider returns `[]`).
-/

/-! ## Character classes (ASCII fragment of the Python regex classes) -/

/-- ASCII fragment of Python's `\s` (and of `str.strip`/`str.split`). -/
def isPySpace (c : Char) : Bool := c.isWhitespace

/-- ASCII fragment of Python's `\w`: letters, digits and underscore. -/
def isPyWordChar (c : Char) : Bool := c.isAlphanum || c == '_'

/-- Characters kept by `re.sub(r'[^\w\s]', '', s)`. -/
def keepCh (c : Char) : Bool := isPyWordChar c || isPySpace c

/-- The bracket characters removed by `re.sub(r'[()[\]]', '', combined)`. -/
def isBracketCh (c : Char) : Bool := c == '(' || c == ')' || c == '[' || c == ']'

/-! ## Tokenizer (`normalize_string`, `create_token_set`) -/

/-- `s.lower()` on a character list. -/
def pyLower (l : List Char) : List Char := l.map Char.toLower

/-- `re.sub(r'[^\w\s]', '', s)`: drop everything that is neither a word
character nor whitespace. -/
def stripPunct (l : List Char) : List Char := l.filter keepCh

/-- Helper for `collapseWs`; the flag records whether the previous character
was whitespace (in which case further whitespace is dropped). -/
def collapseWsAux : List Char → Bool → List Char
  | [], _ => []
  | c :: rest, inWs =>
    if isPySpace c then
      if inWs then collapseWsAux rest true else ' ' :: collapseWsAux rest true
    else c :: collapseWsAux rest false

/-- `re.sub(r'\s+', ' ', s)`: replace each whitespace run by one space. -/
def collapseWs (l : List Char) : List Char := collapseWsAux l false

/-- `s.strip()`: drop leading and trailing whitespace. -/
def pyStrip (l : List Char) : List Char :=
  ((l.dropWhile isPySpace).reverse.dropWhile isPySpace).reverse

/-- The character pipeline of `normalize_string`: lowercase, remove
punctuation, collapse whitespace runs, strip. -/
def normalizeChars (l : List Char) : List Char :=
  pyStrip (collapseWs (stripPunct (pyLower l)))

/-- `normalize_string` from the source. -/
def normalize_string (s : String) : String := String.mk (normalizeChars s.toList)

/-- Helper for `splitWs`; the first argument accumulates the current word in
reverse. -/
def splitWsAux : List Char → List Char → List (List Char)
  | cur, [] => if cur == [] then [] else [cur.reverse]
  | cur, c :: rest =>
    if isPySpace c then
      if cur == [] then splitWsAux [] rest else cur.reverse :: splitWsAux [] rest
    else splitWsAux (c :: cur) rest

/-- Python `str.split()` with no separator: split on whitespace runs,
dropping empty pieces. -/
def splitWs (l : List Char) : List (List Char) := splitWsAux [] l

/-- The stop words removed by `create_token_set`. -/
def stop_words : List String :=
  ["feat", "featuring", "ft", "ft.", "vs", "vs.", "with", "and", "&", "x"]

/-- Drop bracket characters, keeping their content. -/
def removeBrackets (l : List Char) : List Char := l.filter (fun c => !(isBracketCh c))

/-- `create_token_set(title, artist, album)` from the source: combine the
fields, early-return on an all-whitespace combination, remove brackets,
normalize, split, drop stop words and empty tokens, deduplicate into a set. -/
def create_token_set (title artist album : String) : Finset String :=
  let combined := pyStrip (title ++ " " ++ artist ++ " " ++ album).toList
  if combined == [] then ∅
  else
    let tokens := (splitWs (normalizeChars (removeBrackets combined))).map String.mk
    (tokens.filter (fun tok => !(tok == "") && !(stop_words.contains tok))).toFinset

/-! ## Similarity scorer (`subset_similarity`) -/

/-- `subset_similarity(source_tokens, candidate_tokens, min_candidate_tokens)`
from the source.  Floats are modelled exactly as rationals. -/
def subset_similarity (source_tokens candidate_tokens : Finset String)
    (min_candidate_tokens : Nat) : ℚ :=
  if candidate_tokens = ∅ then 0
  else if candidate_tokens.card < min_candidate_tokens then 0
  else ((candidate_tokens ∩ source_tokens).card : ℚ) / (candidate_tokens.card : ℚ)

/-! ## Data model -/

/-- One raw search-result candidate, as produced by a provider's
`search_track` (`track.get('album', '')` defaults the album to `""`,
`track.get('duration_ms')` and `track.get('track_number')` default to
`None`). -/
structure RawTrack where
  title : String
  artist : String
  album : String
  url : String
  duration_ms : Option Nat
  track_number : Option Nat
deriving DecidableEq

/-- The source-track metadata passed to `find_equivalent_links`. -/
structure SourceMeta where
  title : String
  artist : String
  duration_ms : Option Nat
  album : Option String
  track_number : Option Nat
deriving DecidableEq

/-! ## Classifier (`process_results`, per-candidate part) -/

/-- Python truthiness of an optional integer: `None` and `0` are falsy. -/
def truthyNat : Option Nat → Bool
  | none => false
  | some n => n != 0

/-- `if source_track_number and track_number: track_number_match =
source_track_number == track_number`. -/
def track_number_match (s c : Option Nat) : Bool :=
  truthyNat s && truthyNat c && (s.getD 0 == c.getD 0)

/-- `if source_duration_ms and track_duration:` -/
def duration_gate (s c : Option Nat) : Bool := truthyNat s && truthyNat c

/-- `duration_diff` as recorded by the classifier: `abs(source - candidate)`
when the gate is taken, and the initial value `0` otherwise. -/
def duration_diff (s c : Option Nat) : Nat :=
  if duration_gate s c then Nat.dist (s.getD 0) (c.getD 0) else 0

/-- `exact_duration_ok`: tolerance 5000ms when track numbers match, 1000ms
otherwise; `True` when the gate is skipped. -/
def exact_duration_ok (s c : Option Nat) (tnm : Bool) : Bool :=
  if duration_gate s c then
    decide (duration_diff s c ≤ if tnm then 5000 else 1000)
  else true

/-- `alt_duration_ok`: tolerance 10000ms; `True` when the gate is skipped. -/
def alt_duration_ok (s c : Option Nat) : Bool :=
  if duration_gate s c then decide (duration_diff s c ≤ 10000) else true

/-- `exact_threshold = 0.4 if track_number_match else 0.75`. -/
def exact_threshold (tnm : Bool) : ℚ := if tnm then 0.4 else 0.75

def source_exact_tokens (src : SourceMeta) : Finset String :=
  create_token_set src.title src.artist (src.album.getD "")

def source_alt_tokens (src : SourceMeta) : Finset String :=
  create_token_set src.title src.artist ""

def candidate_exact_tokens (t : RawTrack) : Finset String :=
  create_token_set t.title t.artist t.album

def candidate_alt_tokens (t : RawTrack) : Finset String :=
  create_token_set t.title t.artist ""

def exact_similarity (src : SourceMeta) (t : RawTrack) : ℚ :=
  subset_similarity (source_exact_tokens src) (candidate_exact_tokens t) 2

def alt_similarity (src : SourceMeta) (t : RawTrack) : ℚ :=
  subset_similarity (source_alt_tokens src) (candidate_alt_tokens t) 2

/-- `s.lower()` on a string. -/
def strLower (s : String) : String := String.mk (pyLower s.toList)

/-- Python truthiness of an optional string: `None` and `""` are falsy. -/
def truthyStr : Option String → Bool
  | none => false
  | some s => !(s == "")

/-- `album_match = track_album.lower() == (source_album or '').lower() if
source_album else False`. -/
def album_match (source_album : Option String) (track_album : String) : Bool :=
  if truthyStr source_album then strLower track_album == strLower (source_album.getD "")
  else false

/-- `not track_album or track_album.strip() == ''`. -/
def isBlank (s : String) : Bool := pyStrip s.toList == []

/-- `missing_data_penalty = 0.05 if not track_album or track_album.strip() == '' else 0`. -/
def missing_penalty_val (album : String) : ℚ := if isBlank album then 0.05 else 0

/-- `version_words = ['live', 'remix', 'cover', 'acoustic', 'demo']`. -/
def version_words : List String := ["live", "remix", "cover", "acoustic", "demo"]

/-- Python substring containment `needle in hay`. -/
def containsSub (needle : List Char) : List Char → Bool
  | [] => needle == []
  | c :: rest => needle.isPrefixOf (c :: rest) || containsSub needle rest

/-- `any(word in s.lower() for word in version_words)`. -/
def hasVersionWord (s : String) : Bool :=
  version_words.any (fun w => containsSub w.toList (pyLower s.toList))

/-- `version_penalty = 0.1` when the candidate title has a version word and
the source title does not. -/
def version_penalty_val (source_title track_title : String) : ℚ :=
  if hasVersionWord track_title && !(hasVersionWord source_title) then 0.1 else 0

/-- An entry of `exact_candidates`. -/
structure ExactCand where
  track : RawTrack
  similarity : ℚ
  duration_diff : Nat
  album_match : Bool
  missing_data_penalty : ℚ
  track_number_match : Bool
deriving DecidableEq

/-- An entry of `alt_candidates`. -/
structure AltCand where
  track : RawTrack
  similarity : ℚ
  duration_diff : Nat
  version_penalty : ℚ
  missing_data_penalty : ℚ
  total_penalty : ℚ
deriving DecidableEq

/-- The three possible fates of one candidate inside the classification
loop of `process_results`. -/
inductive Classification where
  | exact : ExactCand → Classification
  | alt : AltCand → Classification
  | rejected : Classification
deriving DecidableEq

/-- `exact_similarity >= exact_threshold and exact_duration_ok`. -/
def exact_cond (src : SourceMeta) (t : RawTrack) : Bool :=
  decide (exact_threshold (track_number_match src.track_number t.track_number)
      ≤ exact_similarity src t)
    && exact_duration_ok src.duration_ms t.duration_ms
        (track_number_match src.track_number t.track_number)

/-- `alt_similarity >= 0.5 and alt_duration_ok`. -/
def alt_cond (src : SourceMeta) (t : RawTrack) : Bool :=
  decide ((0.5 : ℚ) ≤ alt_similarity src t)
    && alt_duration_ok src.duration_ms t.duration_ms

/-- The classification of one candidate: the `if ... continue / if ... else`
chain of the loop body of `process_results`. -/
def classify_candidate (src : SourceMeta) (t : RawTrack) : Classification :=
  if exact_cond src t then
    .exact
      { track := t
        similarity := exact_similarity src t
        duration_diff := duration_diff src.duration_ms t.duration_ms
        album_match := album_match src.album t.album
        missing_data_penalty := missing_penalty_val t.album
        track_number_match := track_number_match src.track_number t.track_number }
  else if alt_cond src t then
    .alt
      { track := t
        similarity := alt_similarity src t
        duration_diff := duration_diff src.duration_ms t.duration_ms
        version_penalty := version_penalty_val src.title t.title
        missing_data_penalty := missing_penalty_val t.album
        total_penalty := version_penalty_val src.title t.title + missing_penalty_val t.album }
  else .rejected

/-- The classification loop: partition the raw results, in order, into
`exact_candidates` and `alt_candidates`. -/
def classify_all (src : SourceMeta) : List RawTrack → List ExactCand × List AltCand
  | [] => ([], [])
  | t :: rest =>
    let p := classify_all src rest
    match classify_candidate src t with
    | .exact e => (e :: p.1, p.2)
    | .alt a => (p.1, a :: p.2)
    | .rejected => p

def exact_of : Classification → Option ExactCand
  | .exact e => some e
  | _ => none

def alt_of : Classification → Option AltCand
  | .alt a => some a
  | _ => none

/-! ## Ranker -/

/-- Python booleans compare as the integers 0 and 1. -/
def boolVal (b : Bool) : ℚ := if b then 1 else 0

/-- The composite sort key of `max(exact_candidates, key=...)`, a Python
tuple compared lexicographically. -/
def exactKey (c : ExactCand) : Lex (ℚ × Lex (ℚ × Lex (ℚ × Lex (ℚ × ℚ)))) :=
  toLex (c.similarity,
    toLex (boolVal c.album_match,
      toLex (boolVal c.track_number_match,
        toLex (-c.missing_data_penalty, -(c.duration_diff : ℚ)))))

/-- Python `max(lst, key=...)`: first element, replaced whenever a strictly
greater key appears. -/
def best_exact : List ExactCand → Option ExactCand
  | [] => none
  | c :: rest =>
    some (rest.foldl (fun b x => if exactKey b < exactKey x then x else b) c)

/-- The composite sort key of `alt_candidates.sort(key=...)`. -/
def altKey (c : AltCand) : Lex (ℚ × Lex (ℚ × ℚ)) :=
  toLex (-c.similarity, toLex (c.total_penalty, (c.duration_diff : ℚ)))

/-- Weak order used for the (stable) Python sort of alternatives. -/
def altLe (a b : AltCand) : Prop := altKey a ≤ altKey b

instance : DecidableRel altLe :=
  fun a b => inferInstanceAs (Decidable (altKey a ≤ altKey b))

instance : IsTotal AltCand altLe := ⟨fun a b => le_total (altKey a) (altKey b)⟩

instance : IsTrans AltCand altLe := ⟨fun _ _ _ h h' => le_trans h h'⟩

/-- `alt_candidates.sort(key=...)`: a stable sort by the composite key. -/
def sort_alternatives (l : List AltCand) : List AltCand := l.insertionSort altLe

/-! ## Orchestrator (`process_results` dict updates, `find_equivalent_links`) -/

/-- One entry of the `alternatives` dict, as assembled by `process_results`. -/
structure AltItem where
  title : String
  artist : String
  album : String
  url : String
  durationMs : Option Nat
  service : String
deriving DecidableEq

def mk_alt_item (service : String) (c : AltCand) : AltItem :=
  { title := c.track.title
    artist := c.track.artist
    album := c.track.album
    url := c.track.url
    durationMs := c.track.duration_ms
    service := service }

/-- A dict update that happens only when a value is present. -/
def opt_entry {α : Type} (k : String) (v : Option α) : List (String × α) :=
  match v with
  | some x => [(k, x)]
  | none => []

/-- The link recorded for one provider: the url of the best exact candidate,
if any (`if exact_candidates: links_dict[service_name] = ...`). -/
def provider_link (src : SourceMeta) (results : List RawTrack) : Option String :=
  (best_exact (classify_all src results).1).map (fun b => b.track.url)

/-- The alternatives recorded for one provider: the full sorted list of
alternative candidates, if nonempty (`if alt_candidates: ...`). -/
def provider_alts (src : SourceMeta) (service : String) (results : List RawTrack) :
    Option (List AltItem) :=
  let alts := (classify_all src results).2
  if alts = [] then none
  else some ((sort_alternatives alts).map (mk_alt_item service))

/-- One loop iteration of `process_results`, crash included.  The variable
`exact_duration_tolerance` is assigned only inside the duration gate; the
debug print that follows the gate reads it unconditionally, so when the gate
is skipped and no earlier candidate of the same `process_results` call has
taken the gate, the print raises UnboundLocalError before any
classification happens — modelled as `none`.  `tolBound` records whether the
tolerance variable is currently bound in this call's locals; its (stale)
value is only printed, never used, so it does not enter the
classification. -/
def classify_step (src : SourceMeta) (t : RawTrack) (tolBound : Bool) :
    Option (Classification × Bool) :=
  if duration_gate src.duration_ms t.duration_ms || tolBound then
    some (classify_candidate src t,
      tolBound || duration_gate src.duration_ms t.duration_ms)
  else none

/-- Append one classified candidate to the partition built so far. -/
def accum_candidate (c : Classification) (p : List ExactCand × List AltCand) :
    List ExactCand × List AltCand :=
  match c with
  | .exact e => (e :: p.1, p.2)
  | .alt a => (p.1, a :: p.2)
  | .rejected => p

/-- The candidate loop of one `process_results` call: `none` as soon as some
iteration raises UnboundLocalError (which aborts the whole request);
otherwise the partition into exact and alternative candidates, in order. -/
def process_candidates_aux (src : SourceMeta) :
    List RawTrack → Bool → Option (List ExactCand × List AltCand)
  | [], _ => some ([], [])
  | t :: rest, tolBound =>
    match classify_step src t tolBound with
    | none => none
    | some (c, tolBoundNext) =>
      (process_candidates_aux src rest tolBoundNext).map (accum_candidate c)

/-- Each `process_results` call has fresh locals, so every provider's batch
starts with the tolerance variable unbound. -/
def process_candidates (src : SourceMeta) (results : List RawTrack) :
    Option (List ExactCand × List AltCand) :=
  process_candidates_aux src results false

/-- The dict mutations of `process_results` after a completed loop:
`links_dict[service] = best exact url` when there is an exact candidate,
`alt_dict[service] = sorted alternatives` when there are alternatives. -/
def record_results (service : String) (links : List (String × String))
    (alts : List (String × List AltItem)) (p : List ExactCand × List AltCand) :
    List (String × String) × List (String × List AltItem) :=
  (links ++ opt_entry service ((best_exact p.1).map (fun b => b.track.url)),
   alts ++ opt_entry service
     (if p.2 = [] then none
      else some ((sort_alternatives p.2).map (mk_alt_item service))))

/-- `process_results(service_name, results, links, alternatives)`: run the
candidate loop (which may raise), then the dict mutations modelled as
association-list appends. -/
def process_results (src : SourceMeta) (service : String) (results : List RawTrack)
    (links : List (String × String)) (alts : List (String × List AltItem)) :
    Option (List (String × String) × List (String × List AltItem)) :=
  (process_candidates src results).map (record_results service links alts)

/-- `find_equivalent_links`: build the source token sets once, then process
the three providers in order.  Each provider is modelled by the result list
its `search_track` call returns.  An uncaught UnboundLocalError in any
batch aborts the request (`none`): the caller has no try block around this
call. -/
def find_equivalent_links (title artist : String)
    (spotify_results apple_results youtube_results : List RawTrack)
    (source_duration_ms : Option Nat) (source_album : Option String)
    (source_track_number : Option Nat) :
    Option (List (String × String) × List (String × List AltItem)) :=
  let src : SourceMeta :=
    ⟨title, artist, source_duration_ms, source_album, source_track_number⟩
  (process_results src "spotify" spotify_results [] []).bind (fun p1 =>
    (process_results src "apple" apple_results p1.1 p1.2).bind (fun p2 =>
      process_results src "youtube" youtube_results p2.1 p2.2))

/-- Canonical token list used by the tokenizer lemmas: lowercase, drop
punctuation, split on whitespace. -/
def tokenList (l : List Char) : List (List Char) := splitWs (stripPunct (pyLower l))

/-- Post-processing shared by `create_token_set` and `tokenSetSpec`: pack the
tokens into strings, drop empty tokens and stop words, and deduplicate. -/
def tokenFinset (ts : List (List Char)) : Finset String :=
  ((ts.map String.mk).filter (fun tok => !(tok == "") && !(stop_words.contains tok))).toFinset

/-- Modelled from the spec's words (claim C6): the set of whitespace-split
tokens of the field concatenation after first removing bracket characters,
then lowercasing, stripping remaining punctuation and collapsing whitespace,
with stop words and empty tokens dropped and duplicates removed. -/
def tokenSetSpec (title artist album : String) : Finset String :=
  tokenFinset (splitWs (collapseWs (stripPunct (pyLower
    (removeBrackets (title ++ " " ++ artist ++ " " ++ album).toList)))))

/-- Apply a character map to a string (used to state case invariance). -/
def mapStr (f : Char → Char) (s : String) : String := String.mk (s.toList.map f)

-- ### char-class lemmas
theorem toNat_ofNat_valid (n : Nat) (h : n < 55296) : (Char.ofNat n).toNat = n := by
  have hv : n.isValidChar := Or.inl h
  simp only [Char.ofNat, dif_pos hv]
  simp [Char.ofNatAux, Char.toNat, UInt32.toNat, UInt32.ofNat']

theorem toLower_eq (c : Char) :
    Char.toLower c = if 65 ≤ c.toNat ∧ c.toNat ≤ 90 then Char.ofNat (c.toNat + 32) else c := by
  simp [Char.toLower, ge_iff_le]

theorem toUpper_eq (c : Char) :
    Char.toUpper c = if 97 ≤ c.toNat ∧ c.toNat ≤ 122 then Char.ofNat (c.toNat - 32) else c := by
  simp [Char.toUpper, ge_iff_le]

theorem toNat_toLower (c : Char) :
    (Char.toLower c).toNat = if 65 ≤ c.toNat ∧ c.toNat ≤ 90 then c.toNat + 32 else c.toNat := by
  rw [toLower_eq]
  split
  · next h => exact toNat_ofNat_valid _ (by omega)
  · rfl

theorem toNat_toUpper (c : Char) :
    (Char.toUpper c).toNat = if 97 ≤ c.toNat ∧ c.toNat ≤ 122 then c.toNat - 32 else c.toNat := by
  rw [toUpper_eq]
  split
  · next h => exact toNat_ofNat_valid _ (by omega)
  · rfl

theorem toNat_inj {a b : Char} (h : a.toNat = b.toNat) : a = b := by
  apply Char.ext
  exact UInt32.ext h

theorem char_eq_iff_toNat (a b : Char) : a = b ↔ a.toNat = b.toNat :=
  ⟨fun h => h ▸ rfl, toNat_inj⟩

theorem isPySpace_iff (c : Char) :
    isPySpace c = true ↔ (c.toNat = 32 ∨ c.toNat = 9 ∨ c.toNat = 13 ∨ c.toNat = 10) := by
  have e1 : (' ').toNat = 32 := by decide
  have e2 : ('\t').toNat = 9 := by decide
  have e3 : ('\x0d').toNat = 13 := by decide
  have e4 : ('\n').toNat = 10 := by decide
  simp only [isPySpace, Char.isWhitespace, Bool.or_eq_true, decide_eq_true_eq,
    char_eq_iff_toNat, e1, e2, e3, e4]
  tauto

theorem isPyWordChar_iff (c : Char) :
    isPyWordChar c = true ↔
      ((65 ≤ c.toNat ∧ c.toNat ≤ 90) ∨ (97 ≤ c.toNat ∧ c.toNat ≤ 122) ∨
       (48 ≤ c.toNat ∧ c.toNat ≤ 57) ∨ c.toNat = 95) := by
  have e5 : ('_').toNat = 95 := by decide
  have hU : Char.isUpper c = (decide (65 ≤ c.toNat) && decide (c.toNat ≤ 90)) := rfl
  have hL : Char.isLower c = (decide (97 ≤ c.toNat) && decide (c.toNat ≤ 122)) := rfl
  have hD : Char.isDigit c = (decide (48 ≤ c.toNat) && decide (c.toNat ≤ 57)) := rfl
  simp only [isPyWordChar, Char.isAlphanum, Char.isAlpha, hU, hL, hD, Bool.or_eq_true,
    Bool.and_eq_true, decide_eq_true_eq, beq_iff_eq, char_eq_iff_toNat, e5]
  tauto

theorem keepCh_iff (c : Char) :
    keepCh c = true ↔
      ((65 ≤ c.toNat ∧ c.toNat ≤ 90) ∨ (97 ≤ c.toNat ∧ c.toNat ≤ 122) ∨
       (48 ≤ c.toNat ∧ c.toNat ≤ 57) ∨ c.toNat = 95 ∨
       c.toNat = 32 ∨ c.toNat = 9 ∨ c.toNat = 13 ∨ c.toNat = 10) := by
  simp only [keepCh, Bool.or_eq_true, isPyWordChar_iff, isPySpace_iff]
  tauto

theorem isBracketCh_iff (c : Char) :
    isBracketCh c = true ↔
      (c.toNat = 40 ∨ c.toNat = 41 ∨ c.toNat = 91 ∨ c.toNat = 93) := by
  have e1 : ('(').toNat = 40 := by decide
  have e2 : (')').toNat = 41 := by decide
  have e3 : ('[').toNat = 91 := by decide
  have e4 : (']').toNat = 93 := by decide
  simp only [isBracketCh, Bool.or_eq_true, beq_iff_eq, char_eq_iff_toNat, e1, e2, e3, e4]
  tauto

theorem isPySpace_toLower (c : Char) : isPySpace (Char.toLower c) = isPySpace c := by
  rw [Bool.eq_iff_iff, isPySpace_iff, isPySpace_iff, toNat_toLower]
  split <;> omega

theorem isPySpace_toUpper (c : Char) : isPySpace (Char.toUpper c) = isPySpace c := by
  rw [Bool.eq_iff_iff, isPySpace_iff, isPySpace_iff, toNat_toUpper]
  split <;> omega

theorem isBracketCh_toLower (c : Char) : isBracketCh (Char.toLower c) = isBracketCh c := by
  rw [Bool.eq_iff_iff, isBracketCh_iff, isBracketCh_iff, toNat_toLower]
  split <;> omega

theorem isBracketCh_toUpper (c : Char) : isBracketCh (Char.toUpper c) = isBracketCh c := by
  rw [Bool.eq_iff_iff, isBracketCh_iff, isBracketCh_iff, toNat_toUpper]
  split <;> omega

theorem keepCh_toLower (c : Char) : keepCh (Char.toLower c) = keepCh c := by
  rw [Bool.eq_iff_iff, keepCh_iff, keepCh_iff, toNat_toLower]
  split <;> omega

theorem toLower_toUpper (c : Char) : Char.toLower (Char.toUpper c) = Char.toLower c := by
  apply toNat_inj
  rw [toNat_toLower, toNat_toLower, toNat_toUpper]
  split_ifs <;> omega

theorem toLower_toLower (c : Char) : Char.toLower (Char.toLower c) = Char.toLower c := by
  apply toNat_inj
  rw [toNat_toLower, toNat_toLower]
  split_ifs <;> omega

theorem toLower_of_isPySpace {c : Char} (h : isPySpace c = true) : Char.toLower c = c := by
  apply toNat_inj
  rw [toNat_toLower]
  rw [isPySpace_iff] at h
  split <;> omega

-- ### splitWs interface lemmas

theorem splitWsAux_ws {m : List Char} (h : ∀ c ∈ m, isPySpace c = true) (cur : List Char) :
    splitWsAux cur m = splitWsAux cur [] := by
  induction m generalizing cur with
  | nil => rfl
  | cons c m ih =>
    have hc : isPySpace c = true := h c (List.mem_cons_self c m)
    have hm : ∀ x ∈ m, isPySpace x = true := fun x hx => h x (List.mem_cons_of_mem c hx)
    by_cases hcur : cur == []
    · have : cur = [] := by simpa using hcur
      subst this
      simp [splitWsAux, hc, ih hm]
    · simp only [splitWsAux, hc, if_pos rfl, hcur, if_neg, Bool.false_eq_true,
        not_false_iff, if_true]
      rw [ih hm]
      simp [splitWsAux, hcur]

theorem splitWsAux_append_ws {m : List Char} (h : ∀ c ∈ m, isPySpace c = true)
    (l cur : List Char) : splitWsAux cur (l ++ m) = splitWsAux cur l := by
  induction l generalizing cur with
  | nil => simpa using splitWsAux_ws h cur
  | cons c l ih =>
    by_cases hc : isPySpace c
    · by_cases hcur : cur == [] <;> simp [splitWsAux, hc, hcur, ih]
    · simp [splitWsAux, hc, ih]

theorem splitWs_append_ws {m : List Char} (h : ∀ c ∈ m, isPySpace c = true) (l : List Char) :
    splitWs (l ++ m) = splitWs l :=
  splitWsAux_append_ws h l []

theorem splitWs_ws_nil {m : List Char} (h : ∀ c ∈ m, isPySpace c = true) :
    splitWs m = [] := by
  have := splitWsAux_ws h []
  simpa [splitWs, splitWsAux] using this

theorem splitWs_leading_ws {p : List Char} (h : ∀ c ∈ p, isPySpace c = true) (l : List Char) :
    splitWs (p ++ l) = splitWs l := by
  induction p with
  | nil => rfl
  | cons c p ih =>
    have hc : isPySpace c = true := h c (List.mem_cons_self c p)
    have hp : ∀ x ∈ p, isPySpace x = true := fun x hx => h x (List.mem_cons_of_mem c hx)
    simp [splitWs, splitWsAux, hc]
    exact ih hp

theorem splitWs_dropWhile (l : List Char) :
    splitWs (l.dropWhile isPySpace) = splitWs l := by
  induction l with
  | nil => rfl
  | cons c l ih =>
    by_cases hc : isPySpace c
    · simpa [List.dropWhile, hc, splitWs, splitWsAux] using ih
    · simp [List.dropWhile, hc]

theorem splitWs_pyStrip (l : List Char) : splitWs (pyStrip l) = splitWs l := by
  unfold pyStrip
  set d := l.dropWhile isPySpace with hd
  have hsplit : d.reverse.takeWhile isPySpace ++ d.reverse.dropWhile isPySpace = d.reverse :=
    List.takeWhile_append_dropWhile _ _
  have hdecomp : d = (d.reverse.dropWhile isPySpace).reverse ++ (d.reverse.takeWhile isPySpace).reverse := by
    rw [← List.reverse_append, hsplit, List.reverse_reverse]
  have hws : ∀ c ∈ (d.reverse.takeWhile isPySpace).reverse, isPySpace c = true := by
    intro c hc
    exact List.mem_takeWhile_imp (List.mem_reverse.mp hc)
  calc splitWs (d.reverse.dropWhile isPySpace).reverse
      = splitWs ((d.reverse.dropWhile isPySpace).reverse ++ (d.reverse.takeWhile isPySpace).reverse) :=
        (splitWs_append_ws hws _).symm
    _ = splitWs d := by rw [← hdecomp]
    _ = splitWs l := splitWs_dropWhile l

theorem splitWsAux_collapse (l : List Char) :
    ∀ (cur : List Char) (b : Bool), (b = true → cur = []) →
      splitWsAux cur (collapseWsAux l b) = splitWsAux cur l := by
  induction l with
  | nil => intro cur b _; rfl
  | cons c l ih =>
    intro cur b hb
    by_cases hc : isPySpace c
    · have hsp : isPySpace ' ' = true := by decide
      cases b with
      | true =>
        have hcur : cur = [] := hb rfl
        subst hcur
        rw [show collapseWsAux (c :: l) true = collapseWsAux l true by simp [collapseWsAux, hc]]
        rw [ih [] true (fun _ => rfl)]
        simp [splitWsAux, hc]
      | false =>
        rw [show collapseWsAux (c :: l) false = ' ' :: collapseWsAux l true by
          simp [collapseWsAux, hc]]
        by_cases hcur : cur = []
        · subst hcur
          rw [show splitWsAux [] (' ' :: collapseWsAux l true) = splitWsAux [] (collapseWsAux l true) by
            simp [splitWsAux, hsp]]
          rw [ih [] true (fun _ => rfl)]
          simp [splitWsAux, hc]
        · have hcurb : (cur == []) = false := by simpa using hcur
          rw [show splitWsAux cur (' ' :: collapseWsAux l true) =
              cur.reverse :: splitWsAux [] (collapseWsAux l true) by
            simp [splitWsAux, hsp, hcurb]]
          rw [ih [] true (fun _ => rfl)]
          simp [splitWsAux, hc, hcurb]
    · rw [show collapseWsAux (c :: l) b = c :: collapseWsAux l false by simp [collapseWsAux, hc]]
      rw [show splitWsAux cur (c :: collapseWsAux l false) =
          splitWsAux (c :: cur) (collapseWsAux l false) by simp [splitWsAux, hc]]
      rw [ih (c :: cur) false (by simp)]
      simp [splitWsAux, hc]

theorem splitWs_collapseWs (l : List Char) : splitWs (collapseWs l) = splitWs l :=
  splitWsAux_collapse l [] false (by simp)

-- ### tokenizer canonical-form lemmas

theorem pyLower_removeBrackets (l : List Char) :
    pyLower (removeBrackets l) = removeBrackets (pyLower l) := by
  unfold pyLower removeBrackets
  induction l with
  | nil => rfl
  | cons c l ih =>
    by_cases hc : isBracketCh c
    · simp only [List.filter_cons, hc, List.map_cons, isBracketCh_toLower]
      simpa using ih
    · have hc' : isBracketCh c = false := by simpa using hc
      simp only [List.filter_cons, hc', List.map_cons, isBracketCh_toLower]
      simpa using ih

theorem stripPunct_removeBrackets (l : List Char) :
    stripPunct (removeBrackets l) = stripPunct l := by
  unfold stripPunct removeBrackets
  rw [List.filter_filter]
  apply List.filter_congr
  intro c _
  by_cases hk : keepCh c
  · have hb : isBracketCh c = false := by
      cases h : isBracketCh c
      · rfl
      · have h1 := (keepCh_iff c).mp hk
        have h2 := (isBracketCh_iff c).mp h
        omega
    simp [hk, hb]
  · have hk' : keepCh c = false := by simpa using hk
    simp [hk']

theorem splitWs_normalizeChars (m : List Char) :
    splitWs (normalizeChars m) = splitWs (stripPunct (pyLower m)) := by
  unfold normalizeChars
  rw [splitWs_pyStrip, splitWs_collapseWs]

theorem tokenList_removeBrackets (m : List Char) :
    splitWs (stripPunct (pyLower (removeBrackets m))) = tokenList m := by
  rw [pyLower_removeBrackets, stripPunct_removeBrackets]
  rfl

theorem pyStrip_decomp (l : List Char) :
    ∃ p s, l = p ++ pyStrip l ++ s ∧ (∀ c ∈ p, isPySpace c = true) ∧
      (∀ c ∈ s, isPySpace c = true) := by
  refine ⟨l.takeWhile isPySpace,
    ((l.dropWhile isPySpace).reverse.takeWhile isPySpace).reverse, ?_, ?_, ?_⟩
  · set d := l.dropWhile isPySpace with hd
    have hsplit : d.reverse.takeWhile isPySpace ++ d.reverse.dropWhile isPySpace = d.reverse :=
      List.takeWhile_append_dropWhile _ _
    have hdecomp : d = (d.reverse.dropWhile isPySpace).reverse ++
        (d.reverse.takeWhile isPySpace).reverse := by
      rw [← List.reverse_append, hsplit, List.reverse_reverse]
    have : pyStrip l = (d.reverse.dropWhile isPySpace).reverse := rfl
    rw [this, List.append_assoc, ← hdecomp, List.takeWhile_append_dropWhile]
  · intro c hc
    exact List.mem_takeWhile_imp hc
  · intro c hc
    exact List.mem_takeWhile_imp (List.mem_reverse.mp hc)

theorem all_ws_of_pyStrip_eq_nil {l : List Char} (h : pyStrip l = []) :
    ∀ c ∈ l, isPySpace c = true := by
  obtain ⟨p, s, hdecomp, hp, hs⟩ := pyStrip_decomp l
  rw [h] at hdecomp
  intro c hc
  rw [hdecomp] at hc
  simp only [List.append_nil, List.mem_append] at hc
  rcases hc with hc | hc
  · exact hp c hc
  · exact hs c hc

theorem stripPunct_all_ws {m : List Char} (h : ∀ c ∈ m, isPySpace c = true) :
    ∀ c ∈ stripPunct (pyLower m), isPySpace c = true := by
  intro c hc
  unfold stripPunct pyLower at hc
  have hmem := List.mem_of_mem_filter hc
  obtain ⟨x, hx, rfl⟩ := List.mem_map.mp hmem
  rw [isPySpace_toLower]
  exact h x hx

theorem tokenList_all_ws {m : List Char} (h : ∀ c ∈ m, isPySpace c = true) :
    tokenList m = [] := by
  unfold tokenList
  exact splitWs_ws_nil (stripPunct_all_ws h)

theorem tokenList_pyStrip (l : List Char) : tokenList (pyStrip l) = tokenList l := by
  obtain ⟨p, s, hdecomp, hp, hs⟩ := pyStrip_decomp l
  conv_rhs => rw [hdecomp]
  unfold tokenList
  unfold stripPunct pyLower
  rw [List.map_append, List.map_append, List.filter_append, List.filter_append]
  have hpws : ∀ c ∈ (p.map Char.toLower).filter keepCh, isPySpace c = true :=
    stripPunct_all_ws hp
  have hsws : ∀ c ∈ (s.map Char.toLower).filter keepCh, isPySpace c = true :=
    stripPunct_all_ws hs
  rw [List.append_assoc]
  rw [splitWs_leading_ws hpws]
  rw [splitWs_append_ws hsws]

theorem create_token_set_eq_tokenList (title artist album : String) :
    create_token_set title artist album =
      tokenFinset (tokenList (title ++ " " ++ artist ++ " " ++ album).toList) := by
  unfold create_token_set
  by_cases h : pyStrip (title ++ " " ++ artist ++ " " ++ album).toList = []
  · have hall := all_ws_of_pyStrip_eq_nil h
    have hb : (pyStrip (title ++ " " ++ artist ++ " " ++ album).toList == []) = true := by
      simpa using h
    rw [tokenList_all_ws hall, if_pos hb]
    rfl
  · have hb : (pyStrip (title ++ " " ++ artist ++ " " ++ album).toList == []) = false := by
      simpa using h
    simp only [hb, Bool.false_eq_true, if_false]
    rw [splitWs_normalizeChars, tokenList_removeBrackets, tokenList_pyStrip]
    rfl

theorem tokenSetSpec_eq_tokenList (title artist album : String) :
    tokenSetSpec title artist album =
      tokenFinset (tokenList (title ++ " " ++ artist ++ " " ++ album).toList) := by
  unfold tokenSetSpec
  rw [splitWs_collapseWs, tokenList_removeBrackets]

theorem toList_append (a b : String) : (a ++ b).toList = a.toList ++ b.toList :=
  String.data_append a b

theorem pyLower_map_toUpper (l : List Char) : pyLower (l.map Char.toUpper) = pyLower l := by
  unfold pyLower
  rw [List.map_map]
  exact List.map_congr_left (fun a _ => toLower_toUpper a)

theorem pyLower_map_toLower (l : List Char) : pyLower (l.map Char.toLower) = pyLower l := by
  unfold pyLower
  rw [List.map_map]
  exact List.map_congr_left (fun a _ => toLower_toLower a)

theorem tokenList_congr_append {a a' : List Char}
    (h : stripPunct (pyLower a) = stripPunct (pyLower a')) (b : List Char) :
    tokenList (a ++ b) = tokenList (a' ++ b) := by
  unfold tokenList
  unfold stripPunct pyLower at h ⊢
  rw [List.map_append, List.filter_append, List.map_append, List.filter_append, h]

theorem tokenList_punct_insert {c : Char} (hc : keepCh c = false) (a b : List Char) :
    tokenList (a ++ c :: b) = tokenList (a ++ b) := by
  unfold tokenList stripPunct pyLower
  rw [List.map_append, List.filter_append, List.map_append, List.filter_append]
  have hcl : keepCh (Char.toLower c) = false := by rw [keepCh_toLower]; exact hc
  simp [List.filter_cons, hcl]

/-- C6: `create_token_set` returns the whitespace-split tokens of the
concatenated fields after removing brackets, lowercasing, stripping
punctuation and collapsing whitespace, with stop words, empty tokens and
duplicates dropped; the empty input yields the empty set, and the result is
invariant to the case of the input and to punctuation characters inserted
into or removed from it. -/
theorem C6_tokenizer_spec :
    (∀ t a al, create_token_set t a al = tokenSetSpec t a al) ∧
    (create_token_set "" "" "" = ∅) ∧
    (∀ s, create_token_set (mapStr Char.toUpper s) "" "" = create_token_set s "" "") ∧
    (∀ s, create_token_set (mapStr Char.toLower s) "" "" = create_token_set s "" "") ∧
    (∀ s₁ s₂ c, keepCh c = false →
      create_token_set (s₁ ++ String.singleton c ++ s₂) "" "" =
        create_token_set (s₁ ++ s₂) "" "") := by
  refine ⟨fun t a al => ?_, by decide, fun s => ?_, fun s => ?_, fun s₁ s₂ c hc => ?_⟩
  · rw [create_token_set_eq_tokenList, tokenSetSpec_eq_tokenList]
  · rw [create_token_set_eq_tokenList, create_token_set_eq_tokenList]
    congr 1
    have h1 : (mapStr Char.toUpper s ++ " " ++ "" ++ " " ++ "").toList =
        s.toList.map Char.toUpper ++ (' ' :: [' ']) := by
      simp [mapStr, toList_append]
    have h2 : (s ++ " " ++ "" ++ " " ++ "").toList = s.toList ++ (' ' :: [' ']) := by
      simp [toList_append]
    rw [h1, h2]
    exact tokenList_congr_append (by rw [pyLower_map_toUpper]) _
  · rw [create_token_set_eq_tokenList, create_token_set_eq_tokenList]
    congr 1
    have h1 : (mapStr Char.toLower s ++ " " ++ "" ++ " " ++ "").toList =
        s.toList.map Char.toLower ++ (' ' :: [' ']) := by
      simp [mapStr, toList_append]
    have h2 : (s ++ " " ++ "" ++ " " ++ "").toList = s.toList ++ (' ' :: [' ']) := by
      simp [toList_append]
    rw [h1, h2]
    exact tokenList_congr_append (by rw [pyLower_map_toLower]) _
  · rw [create_token_set_eq_tokenList, create_token_set_eq_tokenList]
    congr 1
    have h1 : (s₁ ++ String.singleton c ++ s₂ ++ " " ++ "" ++ " " ++ "").toList =
        s₁.toList ++ c :: (s₂.toList ++ (' ' :: [' '])) := by
      simp [toList_append, String.singleton]
    have h2 : (s₁ ++ s₂ ++ " " ++ "" ++ " " ++ "").toList =
        s₁.toList ++ (s₂.toList ++ (' ' :: [' '])) := by
      simp [toList_append]
    rw [h1, h2]
    exact tokenList_punct_insert hc _ _

theorem C6_witness :
    keepCh '!' = false ∧
    create_token_set ("ab" ++ String.singleton '!' ++ "c") "" "" =
      create_token_set ("ab" ++ "c") "" "" :=
  ⟨by decide, C6_tokenizer_spec.2.2.2.2 "ab" "c" '!' (by decide)⟩

/-- C3: `subset_similarity` returns 0 when the candidate token set is empty
or has fewer than 2 tokens (the default minimum); otherwise it returns the
fraction of candidate tokens found in the source, which is 1 when the
candidate set is a subset of the source set, and always lies in [0, 1]. -/
theorem C3_subset_similarity (A B : Finset String) :
    ((B = ∅ ∨ B.card < 2) → subset_similarity A B 2 = 0) ∧
    (2 ≤ B.card → subset_similarity A B 2 = ((B ∩ A).card : ℚ) / (B.card : ℚ)) ∧
    (B ⊆ A → 2 ≤ B.card → subset_similarity A B 2 = 1) ∧
    0 ≤ subset_similarity A B 2 ∧ subset_similarity A B 2 ≤ 1 := by
  have hval : 2 ≤ B.card → subset_similarity A B 2 = ((B ∩ A).card : ℚ) / (B.card : ℚ) := by
    intro h2
    have hne : B ≠ ∅ := by
      intro h
      rw [h] at h2
      simp at h2
    have hnlt : ¬ B.card < 2 := by omega
    unfold subset_similarity
    rw [if_neg hne, if_neg hnlt]
  refine ⟨?_, hval, ?_, ?_⟩
  · rintro (h | h)
    · unfold subset_similarity
      rw [if_pos h]
    · unfold subset_similarity
      by_cases hB : B = ∅
      · rw [if_pos hB]
      · rw [if_neg hB, if_pos h]
  · intro hsub h2
    rw [hval h2, Finset.inter_eq_left.mpr hsub]
    have hpos : (0 : ℚ) < (B.card : ℚ) := by
      exact_mod_cast Nat.lt_of_lt_of_le (by norm_num) h2
    exact div_self (ne_of_gt hpos)
  · by_cases hB : B = ∅
    · unfold subset_similarity
      rw [if_pos hB]
      norm_num
    · by_cases hlt : B.card < 2
      · unfold subset_similarity
        rw [if_neg hB, if_pos hlt]
        norm_num
      · have h2 : 2 ≤ B.card := by omega
        rw [hval h2]
        have hpos : (0 : ℚ) < (B.card : ℚ) := by
          exact_mod_cast Nat.lt_of_lt_of_le (by norm_num) h2
        constructor
        · apply div_nonneg _ (le_of_lt hpos)
          exact_mod_cast Nat.zero_le _
        · rw [div_le_one hpos]
          exact_mod_cast Finset.card_le_card (Finset.inter_subset_left)

theorem C3_witness :
    ({"dd", "ee"} : Finset String) ⊆ {"dd", "ee", "ff"} ∧
    2 ≤ ({"dd", "ee"} : Finset String).card ∧
    subset_similarity {"dd", "ee", "ff"} {"dd", "ee"} 2 = 1 :=
  ⟨by decide, by decide,
    (C3_subset_similarity {"dd", "ee", "ff"} {"dd", "ee"}).2.2.1 (by decide) (by decide)⟩

/-- C2 (amended): the duration gate is evaluated exactly when both source and
candidate have a positive duration; then the diff and the two tolerance
checks are as specified, and otherwise (missing or zero duration on either
side) both checks default to true. -/
theorem C2_duration_gate (sd cd : Option Nat) (tnm : Bool) :
    (∀ n m, sd = some n → cd = some m → 0 < n → 0 < m →
      duration_diff sd cd = Nat.dist n m ∧
      exact_duration_ok sd cd tnm = decide (Nat.dist n m ≤ if tnm then 5000 else 1000) ∧
      alt_duration_ok sd cd = decide (Nat.dist n m ≤ 10000)) ∧
    ((sd.getD 0 = 0 ∨ cd.getD 0 = 0) →
      exact_duration_ok sd cd tnm = true ∧ alt_duration_ok sd cd = true) := by
  constructor
  · rintro n m rfl rfl hn hm
    have hgate : duration_gate (some n) (some m) = true := by
      simp [duration_gate, truthyNat]
      omega
    have hdiff : duration_diff (some n) (some m) = Nat.dist n m := by
      simp [duration_diff, hgate]
    refine ⟨hdiff, ?_, ?_⟩
    · simp [exact_duration_ok, hgate, hdiff]
    · simp [alt_duration_ok, hgate, hdiff]
  · intro h
    have hgate : duration_gate sd cd = false := by
      rcases h with h | h
      · cases sd with
        | none => simp [duration_gate, truthyNat]
        | some n =>
          simp only [Option.getD_some] at h
          simp [duration_gate, truthyNat, h]
      · cases cd with
        | none => simp [duration_gate, truthyNat]
        | some n =>
          simp only [Option.getD_some] at h
          simp [duration_gate, truthyNat, h]
    constructor
    · simp [exact_duration_ok, hgate]
    · simp [alt_duration_ok, hgate]

/-- C2 counterexample: a source duration of 0 is a present value (the data
model allows `duration_ms ≥ 0`), so by the claim the gate must be evaluated
and `exactDurationOk` must be `500000 ≤ 1000 = false`; the code instead
treats 0 as falsy and skips the gate, leaving both checks true. -/
theorem C2_counterexample :
    exact_duration_ok (some 0) (some 500000) false = true ∧
    alt_duration_ok (some 0) (some 500000) = true ∧
    ¬ (Nat.dist 0 500000 ≤ 1000) := by decide

theorem C2_witness :
    duration_diff (some 266773) (some 266000) = Nat.dist 266773 266000 ∧
    exact_duration_ok (some 266773) (some 266000) true =
      decide (Nat.dist 266773 266000 ≤ if true then 5000 else 1000) ∧
    alt_duration_ok (some 266773) (some 266000) =
      decide (Nat.dist 266773 266000 ≤ 10000) :=
  (C2_duration_gate (some 266773) (some 266000) true).1 266773 266000 rfl rfl
    (by decide) (by decide)

/-- C10 (amended): with a zero (or absent) duration on either side the
duration functions skip the comparison — both checks true, diff 0 — and at
the decision level a candidate duration of 0 is indistinguishable from an
absent one; but a candidate reached with the duration gate skipped is
actually classified only when an earlier candidate of the same batch has
bound the tolerance variable.  With the tolerance unbound — in particular
for every candidate whenever the source duration is 0 or absent — the debug
print raises UnboundLocalError instead and nothing is recorded. -/
theorem C10_zero_duration :
    (∀ sd cd tnm, (sd.getD 0 = 0 ∨ cd.getD 0 = 0) →
      exact_duration_ok sd cd tnm = true ∧ alt_duration_ok sd cd = true ∧
      duration_diff sd cd = 0) ∧
    (∀ (src : SourceMeta) (t : RawTrack) (tolBound : Bool),
      classify_step { src with duration_ms := some 0 } t tolBound =
        classify_step { src with duration_ms := none } t tolBound) ∧
    (∀ (src : SourceMeta) (t : RawTrack),
      exact_cond src { t with duration_ms := some 0 } =
          exact_cond src { t with duration_ms := none } ∧
        alt_cond src { t with duration_ms := some 0 } =
          alt_cond src { t with duration_ms := none } ∧
        duration_diff src.duration_ms (some 0) = duration_diff src.duration_ms none) ∧
    (∀ (src : SourceMeta) (t : RawTrack) (tolBound : Bool),
      classify_step src { t with duration_ms := some 0 } tolBound = none ↔
        classify_step src { t with duration_ms := none } tolBound = none) ∧
    (∀ (src : SourceMeta) (t : RawTrack), src.duration_ms.getD 0 = 0 →
      classify_step src t false = none) ∧
    (∀ (src : SourceMeta) (t : RawTrack), classify_step src t true ≠ none) := by
  have hgaten : ∀ (sd cd : Option Nat), sd.getD 0 = 0 ∨ cd.getD 0 = 0 →
      duration_gate sd cd = false := by
    rintro sd cd (h | h)
    · cases sd with
      | none => simp [duration_gate, truthyNat]
      | some n =>
        simp only [Option.getD_some] at h
        simp [duration_gate, truthyNat, h]
    · cases cd with
      | none => simp [duration_gate, truthyNat]
      | some n =>
        simp only [Option.getD_some] at h
        simp [duration_gate, truthyNat, h]
  refine ⟨?_, ?_, ?_, ?_, ?_, ?_⟩
  · intro sd cd tnm h
    have hg := hgaten sd cd h
    exact ⟨by simp [exact_duration_ok, hg], by simp [alt_duration_ok, hg],
      by simp [duration_diff, hg]⟩
  · intro src t tolBound
    simp [classify_step, classify_candidate, exact_cond, alt_cond, exact_duration_ok,
      alt_duration_ok, duration_diff, duration_gate, truthyNat, exact_similarity,
      alt_similarity, source_exact_tokens, source_alt_tokens]
  · intro src t
    refine ⟨?_, ?_, ?_⟩ <;>
      simp [exact_cond, alt_cond, exact_duration_ok, alt_duration_ok,
        duration_diff, duration_gate, truthyNat, exact_similarity, alt_similarity,
        candidate_exact_tokens, candidate_alt_tokens, track_number_match]
  · intro src t tolBound
    simp [classify_step, duration_gate, truthyNat]
  · intro src t h
    have hg : duration_gate src.duration_ms t.duration_ms = false := hgaten _ _ (Or.inl h)
    simp [classify_step, hg]
  · intro src t
    simp [classify_step]

/-- C10 counterexample: with source duration 0 and a candidate duration
500000 the claim says the classifier skips the comparison and records
duration_diff 0; the program instead raises UnboundLocalError at the debug
print (a falsy source duration means the gate is never taken, so the
tolerance variable is never bound) and classifies nothing. -/
theorem C10_counterexample :
    classify_step ⟨"s", "a", some 0, none, none⟩
        ⟨"t", "b", "", "u", some 500000, none⟩ false = none ∧
    process_candidates ⟨"s", "a", some 0, none, none⟩
        [⟨"t", "b", "", "u", some 500000, none⟩] = none :=
  ⟨rfl, rfl⟩

theorem C10_witness :
    exact_duration_ok (some 0) (some 777777) false = true ∧
    alt_duration_ok (some 0) (some 777777) = true ∧
    duration_diff (some 0) (some 777777) = 0 ∧
    classify_step ⟨"s", "a", some 0, none, none⟩
        ⟨"t", "b", "", "u", some 777777, none⟩ false = none :=
  ⟨(C10_zero_duration.1 (some 0) (some 777777) false (Or.inl rfl)).1,
   (C10_zero_duration.1 (some 0) (some 777777) false (Or.inl rfl)).2.1,
   (C10_zero_duration.1 (some 0) (some 777777) false (Or.inl rfl)).2.2,
   C10_zero_duration.2.2.2.2.1 ⟨"s", "a", some 0, none, none⟩
     ⟨"t", "b", "", "u", some 777777, none⟩ rfl⟩

-- ### classifier outcome lemmas

theorem classify_exact_val (src : SourceMeta) (t : RawTrack) (h : exact_cond src t = true) :
    classify_candidate src t = .exact
      { track := t
        similarity := exact_similarity src t
        duration_diff := duration_diff src.duration_ms t.duration_ms
        album_match := album_match src.album t.album
        missing_data_penalty := missing_penalty_val t.album
        track_number_match := track_number_match src.track_number t.track_number } := by
  unfold classify_candidate
  rw [if_pos h]

theorem classify_alt_val (src : SourceMeta) (t : RawTrack) (h1 : exact_cond src t = false)
    (h2 : alt_cond src t = true) :
    classify_candidate src t = .alt
      { track := t
        similarity := alt_similarity src t
        duration_diff := duration_diff src.duration_ms t.duration_ms
        version_penalty := version_penalty_val src.title t.title
        missing_data_penalty := missing_penalty_val t.album
        total_penalty := version_penalty_val src.title t.title + missing_penalty_val t.album } := by
  unfold classify_candidate
  rw [if_neg (by simp [h1]), if_pos h2]

theorem classify_rejected_val (src : SourceMeta) (t : RawTrack) (h1 : exact_cond src t = false)
    (h2 : alt_cond src t = false) : classify_candidate src t = .rejected := by
  unfold classify_candidate
  rw [if_neg (by simp [h1]), if_neg (by simp [h2])]

theorem classify_all_cons (src : SourceMeta) (t : RawTrack) (rest : List RawTrack) :
    classify_all src (t :: rest) =
      match classify_candidate src t with
      | .exact e => (e :: (classify_all src rest).1, (classify_all src rest).2)
      | .alt a => ((classify_all src rest).1, a :: (classify_all src rest).2)
      | .rejected => classify_all src rest := rfl

theorem classify_exact_iff (src : SourceMeta) (t : RawTrack) {e : ExactCand}
    (h : classify_candidate src t = .exact e) : exact_cond src t = true ∧ e.track = t := by
  by_cases hc : exact_cond src t = true
  · rw [classify_exact_val src t hc] at h
    injection h with h'
    refine ⟨hc, ?_⟩
    rw [← h']
  · have hc' : exact_cond src t = false := by simpa using hc
    by_cases ha : alt_cond src t = true
    · rw [classify_alt_val src t hc' ha] at h
      exact absurd h (by simp)
    · have ha' : alt_cond src t = false := by simpa using ha
      rw [classify_rejected_val src t hc' ha'] at h
      exact absurd h (by simp)

theorem classify_alt_iff (src : SourceMeta) (t : RawTrack) {a : AltCand}
    (h : classify_candidate src t = .alt a) :
    exact_cond src t = false ∧ alt_cond src t = true ∧ a.track = t := by
  by_cases hc : exact_cond src t = true
  · rw [classify_exact_val src t hc] at h
    exact absurd h (by simp)
  · have hc' : exact_cond src t = false := by simpa using hc
    by_cases ha : alt_cond src t = true
    · rw [classify_alt_val src t hc' ha] at h
      injection h with h'
      refine ⟨hc', ha, ?_⟩
      rw [← h']
    · have ha' : alt_cond src t = false := by simpa using ha
      rw [classify_rejected_val src t hc' ha'] at h
      exact absurd h (by simp)

theorem mem_classify_all_exact (src : SourceMeta) (results : List RawTrack) (e : ExactCand) :
    e ∈ (classify_all src results).1 ↔
      ∃ t ∈ results, classify_candidate src t = .exact e := by
  induction results with
  | nil => simp [show classify_all src [] = ([], []) from rfl]
  | cons t rest ih =>
    rw [classify_all_cons]
    cases h : classify_candidate src t with
    | exact e' =>
      simp only [List.mem_cons, ih]
      constructor
      · rintro (rfl | ⟨t', ht', hc⟩)
        · exact ⟨t, Or.inl rfl, h⟩
        · exact ⟨t', Or.inr ht', hc⟩
      · rintro ⟨t', rfl | ht', hc⟩
        · rw [h] at hc
          injection hc with h'
          exact Or.inl h'.symm
        · exact Or.inr ⟨t', ht', hc⟩
    | alt a' =>
      simp only [List.mem_cons, ih]
      constructor
      · rintro ⟨t', ht', hc⟩
        exact ⟨t', Or.inr ht', hc⟩
      · rintro ⟨t', rfl | ht', hc⟩
        · rw [h] at hc
          simp at hc
        · exact ⟨t', ht', hc⟩
    | rejected =>
      simp only [List.mem_cons, ih]
      constructor
      · rintro ⟨t', ht', hc⟩
        exact ⟨t', Or.inr ht', hc⟩
      · rintro ⟨t', rfl | ht', hc⟩
        · rw [h] at hc
          simp at hc
        · exact ⟨t', ht', hc⟩

theorem mem_classify_all_alt (src : SourceMeta) (results : List RawTrack) (a : AltCand) :
    a ∈ (classify_all src results).2 ↔
      ∃ t ∈ results, classify_candidate src t = .alt a := by
  induction results with
  | nil => simp [show classify_all src [] = ([], []) from rfl]
  | cons t rest ih =>
    rw [classify_all_cons]
    cases h : classify_candidate src t with
    | alt a' =>
      simp only [List.mem_cons, ih]
      constructor
      · rintro (rfl | ⟨t', ht', hc⟩)
        · exact ⟨t, Or.inl rfl, h⟩
        · exact ⟨t', Or.inr ht', hc⟩
      · rintro ⟨t', rfl | ht', hc⟩
        · rw [h] at hc
          injection hc with h'
          exact Or.inl h'.symm
        · exact Or.inr ⟨t', ht', hc⟩
    | exact e' =>
      simp only [List.mem_cons, ih]
      constructor
      · rintro ⟨t', ht', hc⟩
        exact ⟨t', Or.inr ht', hc⟩
      · rintro ⟨t', rfl | ht', hc⟩
        · rw [h] at hc
          simp at hc
        · exact ⟨t', ht', hc⟩
    | rejected =>
      simp only [List.mem_cons, ih]
      constructor
      · rintro ⟨t', ht', hc⟩
        exact ⟨t', Or.inr ht', hc⟩
      · rintro ⟨t', rfl | ht', hc⟩
        · rw [h] at hc
          simp at hc
        · exact ⟨t', ht', hc⟩

-- ### crash-aware loop lemmas

theorem classify_step_eq_some (src : SourceMeta) (t : RawTrack) (tolBound : Bool)
    (h : (duration_gate src.duration_ms t.duration_ms || tolBound) = true) :
    classify_step src t tolBound =
      some (classify_candidate src t,
        tolBound || duration_gate src.duration_ms t.duration_ms) := by
  unfold classify_step
  rw [if_pos h]

theorem classify_step_eq_none (src : SourceMeta) (t : RawTrack) (tolBound : Bool)
    (h : (duration_gate src.duration_ms t.duration_ms || tolBound) = false) :
    classify_step src t tolBound = none := by
  unfold classify_step
  simp [h]

theorem classify_step_inv (src : SourceMeta) (t : RawTrack) (tolBound : Bool)
    {c : Classification} {tb : Bool} (h : classify_step src t tolBound = some (c, tb)) :
    c = classify_candidate src t := by
  cases hg : (duration_gate src.duration_ms t.duration_ms || tolBound)
  · rw [classify_step_eq_none src t tolBound hg] at h
    exact absurd h (by simp)
  · rw [classify_step_eq_some src t tolBound hg] at h
    injection h with h'
    exact (congrArg Prod.fst h').symm

theorem classify_step_of_run (src : SourceMeta) (t : RawTrack) (tolBound : Bool)
    (h : classify_step src t tolBound ≠ none) :
    classify_step src t tolBound =
      some (classify_candidate src t,
        tolBound || duration_gate src.duration_ms t.duration_ms) := by
  cases hg : (duration_gate src.duration_ms t.duration_ms || tolBound)
  · exact absurd (classify_step_eq_none src t tolBound hg) h
  · exact classify_step_eq_some src t tolBound hg

theorem classify_all_cons_accum (src : SourceMeta) (t : RawTrack) (rest : List RawTrack) :
    classify_all src (t :: rest) =
      accum_candidate (classify_candidate src t) (classify_all src rest) := by
  rw [classify_all_cons]
  cases classify_candidate src t <;> rfl

theorem process_candidates_aux_sound (src : SourceMeta) :
    ∀ (results : List RawTrack) (tolBound : Bool) (p : List ExactCand × List AltCand),
      process_candidates_aux src results tolBound = some p →
      p = classify_all src results := by
  intro results
  induction results with
  | nil =>
    intro tolBound p h
    injection h with h'
    exact h'.symm
  | cons t rest ih =>
    intro tolBound p h
    unfold process_candidates_aux at h
    cases hstep : classify_step src t tolBound with
    | none => rw [hstep] at h; exact absurd h (by simp)
    | some c =>
      obtain ⟨cls, tb⟩ := c
      rw [hstep] at h
      have h2 : (process_candidates_aux src rest tb).map (accum_candidate cls) = some p := h
      rw [Option.map_eq_some'] at h2
      obtain ⟨q, haux, hacc⟩ := h2
      have hq := ih tb q haux
      have hcls := classify_step_inv src t tolBound hstep
      rw [← hacc, hq, hcls, ← classify_all_cons_accum]

theorem process_candidates_sound (src : SourceMeta) (results : List RawTrack)
    {p : List ExactCand × List AltCand} (h : process_candidates src results = some p) :
    p = classify_all src results :=
  process_candidates_aux_sound src results false p h

theorem process_candidates_aux_true (src : SourceMeta) :
    ∀ results : List RawTrack,
      process_candidates_aux src results true = some (classify_all src results) := by
  intro results
  induction results with
  | nil => rfl
  | cons t rest ih =>
    have hstep : classify_step src t true = some (classify_candidate src t, true) := by
      rw [classify_step_eq_some src t true (by simp)]
      rw [Bool.true_or]
    unfold process_candidates_aux
    rw [hstep]
    show (process_candidates_aux src rest true).map
        (accum_candidate (classify_candidate src t)) = some (classify_all src (t :: rest))
    rw [ih, Option.map_some', classify_all_cons_accum]

theorem process_candidates_gate_head (src : SourceMeta) (t : RawTrack)
    (rest : List RawTrack) (h : duration_gate src.duration_ms t.duration_ms = true) :
    process_candidates src (t :: rest) = some (classify_all src (t :: rest)) := by
  have hstep : classify_step src t false = some (classify_candidate src t, true) := by
    rw [classify_step_eq_some src t false (by rw [h]; rfl)]
    rw [h]
    rfl
  unfold process_candidates process_candidates_aux
  rw [hstep]
  show (process_candidates_aux src rest true).map
      (accum_candidate (classify_candidate src t)) = some (classify_all src (t :: rest))
  rw [process_candidates_aux_true src rest, Option.map_some', classify_all_cons_accum]

theorem process_candidates_head_crash (src : SourceMeta) (t : RawTrack)
    (rest : List RawTrack) (h : duration_gate src.duration_ms t.duration_ms = false) :
    process_candidates src (t :: rest) = none := by
  unfold process_candidates process_candidates_aux
  rw [classify_step_eq_none src t false (by rw [h]; rfl)]

/-- C8 (amended): every (source, candidate) pair of a batch whose processing
completes is assigned exactly one of the three outcomes — it lands in the
exact list exactly when the exact condition holds, in the alternatives list
exactly when the exact condition fails and the alternative condition holds,
and never in both; a pair reached with the duration gate skipped while the
tolerance variable is unbound is assigned no outcome at all: the debug print
raises UnboundLocalError and aborts the batch. -/
theorem C8_exclusive_classification (src : SourceMeta) (results : List RawTrack)
    (t : RawTrack) (h : t ∈ results) (es : List ExactCand) (as : List AltCand)
    (hrun : process_candidates src results = some (es, as)) :
    ((∃ e ∈ es, e.track = t) ↔ exact_cond src t = true) ∧
    ((∃ a ∈ as, a.track = t) ↔
      (exact_cond src t = false ∧ alt_cond src t = true)) ∧
    ¬ ((∃ e ∈ es, e.track = t) ∧ (∃ a ∈ as, a.track = t)) := by
  have hsound := process_candidates_sound src results hrun
  have hes : es = (classify_all src results).1 := congrArg Prod.fst hsound
  have has : as = (classify_all src results).2 := congrArg Prod.snd hsound
  rw [hes, has]
  have hexact : (∃ e ∈ (classify_all src results).1, e.track = t) ↔
      exact_cond src t = true := by
    constructor
    · rintro ⟨e, hmem, htr⟩
      obtain ⟨t', ht', hc⟩ := (mem_classify_all_exact src results e).mp hmem
      obtain ⟨hcond, htrack⟩ := classify_exact_iff src t' hc
      rw [htrack] at htr
      rw [← htr]
      exact hcond
    · intro hcond
      refine ⟨_, (mem_classify_all_exact src results _).mpr
        ⟨t, h, classify_exact_val src t hcond⟩, rfl⟩
  have halt : (∃ a ∈ (classify_all src results).2, a.track = t) ↔
      (exact_cond src t = false ∧ alt_cond src t = true) := by
    constructor
    · rintro ⟨a, hmem, htr⟩
      obtain ⟨t', ht', hc⟩ := (mem_classify_all_alt src results a).mp hmem
      obtain ⟨hce, hca, htrack⟩ := classify_alt_iff src t' hc
      rw [htrack] at htr
      rw [← htr]
      exact ⟨hce, hca⟩
    · rintro ⟨hce, hca⟩
      refine ⟨_, (mem_classify_all_alt src results _).mpr
        ⟨t, h, classify_alt_val src t hce hca⟩, rfl⟩
  refine ⟨hexact, halt, ?_⟩
  rintro ⟨he, ha⟩
  have h1 := hexact.mp he
  have h2 := (halt.mp ha).1
  rw [h1] at h2
  simp at h2

/-- C8 counterexample: a pair whose candidate is reached with the duration
gate skipped and the tolerance unbound (here: no durations at all) is
assigned none of the three outcomes — the request dies with
UnboundLocalError before the classification checks run. -/
theorem C8_counterexample :
    classify_step ⟨"song", "artist", none, none, none⟩
        ⟨"song", "artist", "", "u", none, none⟩ false = none ∧
    process_candidates ⟨"song", "artist", none, none, none⟩
        [⟨"song", "artist", "", "u", none, none⟩] = none :=
  ⟨rfl, rfl⟩

theorem C8_witness :
    let src : SourceMeta := ⟨"song", "artist", some 100000, none, none⟩
    let t : RawTrack := ⟨"song", "artist", "", "u", some 100000, none⟩
    ((∃ e ∈ (classify_all src [t]).1, e.track = t) ↔ exact_cond src t = true) ∧
    ((∃ a ∈ (classify_all src [t]).2, a.track = t) ↔
      (exact_cond src t = false ∧ alt_cond src t = true)) ∧
    ¬ ((∃ e ∈ (classify_all src [t]).1, e.track = t) ∧
       (∃ a ∈ (classify_all src [t]).2, a.track = t)) :=
  C8_exclusive_classification _ [_] _ (List.mem_singleton.mpr rfl) _ _
    (by rw [process_candidates_gate_head _ _ _ (by decide)])

-- ### ranker lemmas

theorem foldl_max_mem_le (l : List ExactCand) (acc : ExactCand) :
    (l.foldl (fun b x => if exactKey b < exactKey x then x else b) acc) ∈ acc :: l ∧
    exactKey acc ≤
      exactKey (l.foldl (fun b x => if exactKey b < exactKey x then x else b) acc) ∧
    ∀ c ∈ l, exactKey c ≤
      exactKey (l.foldl (fun b x => if exactKey b < exactKey x then x else b) acc) := by
  induction l generalizing acc with
  | nil => simp
  | cons x l ih =>
    obtain ⟨hmem, hacc, hall⟩ := ih (if exactKey acc < exactKey x then x else acc)
    simp only [List.foldl_cons]
    refine ⟨?_, ?_, ?_⟩
    · by_cases hlt : exactKey acc < exactKey x
      · rw [if_pos hlt] at hmem ⊢
        rcases List.mem_cons.mp hmem with hr | hr
        · rw [hr]
          exact List.mem_cons_of_mem _ (List.mem_cons_self x l)
        · exact List.mem_cons_of_mem _ (List.mem_cons_of_mem _ hr)
      · rw [if_neg hlt] at hmem ⊢
        rcases List.mem_cons.mp hmem with hr | hr
        · rw [hr]
          exact List.mem_cons_self _ _
        · exact List.mem_cons_of_mem _ (List.mem_cons_of_mem _ hr)
    · refine le_trans ?_ hacc
      by_cases hlt : exactKey acc < exactKey x
      · rw [if_pos hlt]
        exact le_of_lt hlt
      · rw [if_neg hlt]
    · intro c hc
      rcases List.mem_cons.mp hc with rfl | hc
      · refine le_trans ?_ hacc
        by_cases hlt : exactKey acc < exactKey c
        · rw [if_pos hlt]
        · rw [if_neg hlt]
          exact le_of_not_lt hlt
      · exact hall c hc

theorem best_exact_spec {l : List ExactCand} {b : ExactCand} (h : best_exact l = some b) :
    b ∈ l ∧ ∀ c ∈ l, exactKey c ≤ exactKey b := by
  cases l with
  | nil => simp [best_exact] at h
  | cons x l =>
    simp only [best_exact, Option.some.injEq] at h
    obtain ⟨hmem, hacc, hall⟩ := foldl_max_mem_le l x
    rw [h] at hmem hacc hall
    refine ⟨hmem, ?_⟩
    intro c hc
    rcases List.mem_cons.mp hc with rfl | hc
    · exact hacc
    · exact hall c hc

theorem exactKey_lt_of_album {c₁ c₂ : ExactCand} (hs : c₁.similarity = c₂.similarity)
    (h1 : c₁.album_match = false) (h2 : c₂.album_match = true) :
    exactKey c₁ < exactKey c₂ := by
  unfold exactKey boolVal
  rw [hs, h1, h2]
  refine (Prod.Lex.lt_iff _ _).mpr (Or.inr ⟨rfl, ?_⟩)
  exact (Prod.Lex.lt_iff _ _).mpr (Or.inl (by norm_num))

/-- C5: the retained exact candidate is a maximum under the composite
lexicographic key (similarity, album match, track-number match, negated
missing-album penalty, negated duration diff), none is retained exactly when
there is no exact candidate, the alternatives are the full list sorted
ascending by (-similarity, total penalty, duration diff), and of two exact
candidates of equal similarity the one with the album match wins regardless
of duration difference. -/
theorem C5_ranker :
    (∀ l : List ExactCand, best_exact l = none ↔ l = []) ∧
    (∀ (l : List ExactCand) (b : ExactCand), best_exact l = some b →
      b ∈ l ∧ ∀ c ∈ l, exactKey c ≤ exactKey b) ∧
    (∀ l : List AltCand, (sort_alternatives l).Perm l ∧
      List.Sorted altLe (sort_alternatives l)) ∧
    (∀ c₁ c₂ : ExactCand, c₁.similarity = c₂.similarity → c₁.album_match = false →
      c₂.album_match = true →
      best_exact [c₁, c₂] = some c₂ ∧ best_exact [c₂, c₁] = some c₂) := by
  refine ⟨?_, fun l b h => best_exact_spec h, ?_, ?_⟩
  · intro l
    cases l <;> simp [best_exact]
  · intro l
    exact ⟨List.perm_insertionSort altLe l, List.sorted_insertionSort altLe l⟩
  · intro c₁ c₂ hs h1 h2
    have hlt := exactKey_lt_of_album hs h1 h2
    constructor
    · simp only [best_exact, List.foldl_cons, List.foldl_nil, Option.some.injEq]
      rw [if_pos hlt]
    · simp only [best_exact, List.foldl_cons, List.foldl_nil, Option.some.injEq]
      rw [if_neg (asymm hlt)]

theorem C5_witness :
    let t : RawTrack := ⟨"s", "a", "al", "u", none, none⟩
    let c₁ : ExactCand := ⟨t, 1, 500, false, 0, false⟩
    let c₂ : ExactCand := ⟨t, 1, 999999, true, 0, false⟩
    best_exact [c₁, c₂] = some c₂ ∧ best_exact [c₂, c₁] = some c₂ :=
  (C5_ranker.2.2.2 _ _ rfl rfl rfl)

-- ### orchestrator lemmas

theorem lookup_opt_entry_self {α : Type} (k : String) (v : Option α) :
    (opt_entry k v).lookup k = v := by
  cases v with
  | none => rfl
  | some x => simp [opt_entry, List.lookup]

theorem lookup_opt_entry_ne {α : Type} {q k : String} (h : (q == k) = false) (v : Option α) :
    (opt_entry k v).lookup q = none := by
  cases v with
  | none => rfl
  | some x => simp [opt_entry, List.lookup, h]

theorem process_results_none (src : SourceMeta) (service : String) (results : List RawTrack)
    (links : List (String × String)) (alts : List (String × List AltItem))
    (h : process_candidates src results = none) :
    process_results src service results links alts = none := by
  unfold process_results
  rw [h]
  rfl

theorem process_results_eq (src : SourceMeta) (service : String) (results : List RawTrack)
    (links : List (String × String)) (alts : List (String × List AltItem))
    (h : process_candidates src results ≠ none) :
    process_results src service results links alts =
      some (links ++ opt_entry service (provider_link src results),
        alts ++ opt_entry service (provider_alts src service results)) := by
  cases hc : process_candidates src results with
  | none => exact absurd hc h
  | some p =>
    have hp := process_candidates_sound src results hc
    unfold process_results
    rw [hc, Option.map_some', hp]
    rfl

theorem find_links_alts_eq (title artist : String) (sp ap yt : List RawTrack)
    (sd : Option Nat) (sa : Option String) (stn : Option Nat)
    (out : List (String × String) × List (String × List AltItem))
    (hout : find_equivalent_links title artist sp ap yt sd sa stn = some out) :
    out.1 = opt_entry "spotify" (provider_link ⟨title, artist, sd, sa, stn⟩ sp) ++
        opt_entry "apple" (provider_link ⟨title, artist, sd, sa, stn⟩ ap) ++
        opt_entry "youtube" (provider_link ⟨title, artist, sd, sa, stn⟩ yt) ∧
    out.2 = opt_entry "spotify" (provider_alts ⟨title, artist, sd, sa, stn⟩ "spotify" sp) ++
        opt_entry "apple" (provider_alts ⟨title, artist, sd, sa, stn⟩ "apple" ap) ++
        opt_entry "youtube" (provider_alts ⟨title, artist, sd, sa, stn⟩ "youtube" yt) := by
  obtain ⟨outl, outa⟩ := out
  simp only [find_equivalent_links] at hout
  by_cases hsp : process_candidates (⟨title, artist, sd, sa, stn⟩ : SourceMeta) sp = none
  · rw [process_results_none _ _ _ _ _ hsp, Option.none_bind] at hout
    exact absurd hout (by simp)
  rw [process_results_eq _ _ _ _ _ hsp] at hout
  simp only [Option.some_bind] at hout
  by_cases hap : process_candidates (⟨title, artist, sd, sa, stn⟩ : SourceMeta) ap = none
  · rw [process_results_none _ _ _ _ _ hap, Option.none_bind] at hout
    exact absurd hout (by simp)
  rw [process_results_eq _ _ _ _ _ hap] at hout
  simp only [Option.some_bind] at hout
  by_cases hyt : process_candidates (⟨title, artist, sd, sa, stn⟩ : SourceMeta) yt = none
  · rw [process_results_none _ _ _ _ _ hyt] at hout
    exact absurd hout (by simp)
  rw [process_results_eq _ _ _ _ _ hyt] at hout
  injection hout with h'
  injection h' with h1 h2
  rw [List.nil_append] at h1 h2
  exact ⟨h1.symm, h2.symm⟩

theorem provider_link_nil (src : SourceMeta) : provider_link src [] = none := rfl

theorem provider_alts_nil (src : SourceMeta) (service : String) :
    provider_alts src service [] = none := rfl

/-- C9 (amended): when `find_equivalent_links` completes without raising,
each provider's entries in `links` and `alternatives` are a function of that
provider's own result list alone; a provider whose search returns the empty
list contributes no entry to either map, and the other providers' entries
are unaffected.  The completion hypothesis is necessary: a batch whose
processing raises UnboundLocalError aborts the whole request, and no maps
are returned at all (see the counterexample). -/
theorem C9_provider_frame (title artist : String) (sp ap yt : List RawTrack)
    (sd : Option Nat) (sa : Option String) (stn : Option Nat)
    (out : List (String × String) × List (String × List AltItem))
    (hout : find_equivalent_links title artist sp ap yt sd sa stn = some out) :
    (out.1.lookup "spotify" = provider_link ⟨title, artist, sd, sa, stn⟩ sp ∧
      out.1.lookup "apple" = provider_link ⟨title, artist, sd, sa, stn⟩ ap ∧
      out.1.lookup "youtube" = provider_link ⟨title, artist, sd, sa, stn⟩ yt) ∧
    (out.2.lookup "spotify" = provider_alts ⟨title, artist, sd, sa, stn⟩ "spotify" sp ∧
      out.2.lookup "apple" = provider_alts ⟨title, artist, sd, sa, stn⟩ "apple" ap ∧
      out.2.lookup "youtube" = provider_alts ⟨title, artist, sd, sa, stn⟩ "youtube" yt) ∧
    (sp = [] → out.1.lookup "spotify" = none ∧ out.2.lookup "spotify" = none) ∧
    (ap = [] → out.1.lookup "apple" = none ∧ out.2.lookup "apple" = none) ∧
    (yt = [] → out.1.lookup "youtube" = none ∧ out.2.lookup "youtube" = none) := by
  have hsp_ap : (("spotify" : String) == "apple") = false := by decide
  have hsp_yt : (("spotify" : String) == "youtube") = false := by decide
  have hap_sp : (("apple" : String) == "spotify") = false := by decide
  have hap_yt : (("apple" : String) == "youtube") = false := by decide
  have hyt_sp : (("youtube" : String) == "spotify") = false := by decide
  have hyt_ap : (("youtube" : String) == "apple") = false := by decide
  obtain ⟨hlinks, halts⟩ :=
    find_links_alts_eq title artist sp ap yt sd sa stn out hout
  have l1 : out.1.lookup "spotify" = provider_link ⟨title, artist, sd, sa, stn⟩ sp := by
    rw [hlinks, List.lookup_append, List.lookup_append, lookup_opt_entry_self,
      lookup_opt_entry_ne hsp_ap, lookup_opt_entry_ne hsp_yt, Option.or_none,
      Option.or_none]
  have l2 : out.1.lookup "apple" = provider_link ⟨title, artist, sd, sa, stn⟩ ap := by
    rw [hlinks, List.lookup_append, List.lookup_append, lookup_opt_entry_ne hap_sp,
      lookup_opt_entry_self, lookup_opt_entry_ne hap_yt, Option.none_or, Option.or_none]
  have l3 : out.1.lookup "youtube" = provider_link ⟨title, artist, sd, sa, stn⟩ yt := by
    rw [hlinks, List.lookup_append, List.lookup_append, lookup_opt_entry_ne hyt_sp,
      lookup_opt_entry_ne hyt_ap, lookup_opt_entry_self, Option.none_or, Option.none_or]
  have a1 : out.2.lookup "spotify" =
      provider_alts ⟨title, artist, sd, sa, stn⟩ "spotify" sp := by
    rw [halts, List.lookup_append, List.lookup_append, lookup_opt_entry_self,
      lookup_opt_entry_ne hsp_ap, lookup_opt_entry_ne hsp_yt, Option.or_none,
      Option.or_none]
  have a2 : out.2.lookup "apple" =
      provider_alts ⟨title, artist, sd, sa, stn⟩ "apple" ap := by
    rw [halts, List.lookup_append, List.lookup_append, lookup_opt_entry_ne hap_sp,
      lookup_opt_entry_self, lookup_opt_entry_ne hap_yt, Option.none_or, Option.or_none]
  have a3 : out.2.lookup "youtube" =
      provider_alts ⟨title, artist, sd, sa, stn⟩ "youtube" yt := by
    rw [halts, List.lookup_append, List.lookup_append, lookup_opt_entry_ne hyt_sp,
      lookup_opt_entry_ne hyt_ap, lookup_opt_entry_self, Option.none_or, Option.none_or]
  refine ⟨⟨l1, l2, l3⟩, ⟨a1, a2, a3⟩, ?_, ?_, ?_⟩
  · rintro rfl
    exact ⟨by rw [l1, provider_link_nil], by rw [a1, provider_alts_nil]⟩
  · rintro rfl
    exact ⟨by rw [l2, provider_link_nil], by rw [a2, provider_alts_nil]⟩
  · rintro rfl
    exact ⟨by rw [l3, provider_link_nil], by rw [a3, provider_alts_nil]⟩

/-- C9 counterexample: the spotify batch is empty (so it completes), but the
apple batch's first candidate skips the duration gate with the tolerance
variable still unbound, so the request raises UnboundLocalError and neither
map is ever returned — the claim's promised entries for the other providers
do not exist. -/
theorem C9_counterexample :
    find_equivalent_links "t" "a" [] [⟨"x y", "", "", "u", none, none⟩] []
      none none none = none := rfl

theorem C9_witness :
    (([], []) : List (String × String) × List (String × List AltItem)).1.lookup
        "spotify" = none ∧
    (([], []) : List (String × String) × List (String × List AltItem)).2.lookup
        "spotify" = none :=
  (C9_provider_frame "song" "artist" [] [] [] none none none ([], []) rfl).2.2.1 rfl

-- ### helpers for the classification claims

theorem subset_similarity_formula (A B : Finset String) (h2 : 2 ≤ B.card) :
    subset_similarity A B 2 = ((B ∩ A).card : ℚ) / (B.card : ℚ) := by
  have hne : B ≠ ∅ := by
    intro h
    rw [h] at h2
    simp at h2
  have hnlt : ¬ B.card < 2 := by omega
  unfold subset_similarity
  rw [if_neg hne, if_neg hnlt]

theorem subset_similarity_one (A B : Finset String) (hsub : B ⊆ A) (h2 : 2 ≤ B.card) :
    subset_similarity A B 2 = 1 := by
  rw [subset_similarity_formula A B h2, Finset.inter_eq_left.mpr hsub]
  have hpos : (0 : ℚ) < (B.card : ℚ) := by
    exact_mod_cast Nat.lt_of_lt_of_le (by norm_num) h2
  exact div_self (ne_of_gt hpos)

theorem half_le_one : (0.5 : ℚ) ≤ 1 := by norm_num

theorem three_quarters_le_one : (0.75 : ℚ) ≤ 1 := by norm_num

theorem strLower_eq_empty {s : String} : strLower s = "" ↔ s = "" := by
  constructor
  · intro h
    have h1 : pyLower s.toList = [] := congrArg String.toList h
    have h2 : s.toList = [] := by simpa [pyLower] using h1
    cases s with
    | mk data =>
      have : data = [] := h2
      rw [this]
  · rintro rfl
    rfl

theorem album_match_iff (sa : Option String) (ta : String) :
    album_match sa ta = true ↔
      (ta ≠ "" ∧ ∃ a, sa = some a ∧ a ≠ "" ∧ strLower ta = strLower a) := by
  cases sa with
  | none => simp [album_match, truthyStr]
  | some a =>
    by_cases ha : a = ""
    · subst ha
      simp [album_match, truthyStr]
    · have htr : truthyStr (some a) = true := by simp [truthyStr, ha]
      unfold album_match
      rw [if_pos htr]
      simp only [Option.getD_some, beq_iff_eq, Option.some.injEq]
      constructor
      · intro h
        refine ⟨?_, a, rfl, ha, h⟩
        intro hta
        subst hta
        have : a = "" := strLower_eq_empty.mp (by simpa using h.symm)
        exact ha this
      · rintro ⟨hta, a', rfl, ha', he⟩
        exact he

theorem track_number_match_iff (s c : Option Nat)
    (hs : ∀ n, s = some n → 1 ≤ n) (hc : ∀ n, c = some n → 1 ≤ n) :
    track_number_match s c = true ↔ (s.isSome ∧ c.isSome ∧ s = c) := by
  cases s with
  | none => simp [track_number_match, truthyNat]
  | some n =>
    cases c with
    | none => simp [track_number_match, truthyNat]
    | some m =>
      have hn := hs n rfl
      have hm := hc m rfl
      simp only [track_number_match, truthyNat, Option.getD_some, Option.isSome_some,
        Bool.and_eq_true, bne_iff_ne, ne_eq, beq_iff_eq, Option.some.injEq, true_and]
      constructor
      · rintro ⟨⟨_, _⟩, h⟩
        exact h
      · intro h
        exact ⟨⟨by omega, by omega⟩, h⟩

theorem exact_threshold_eq (s c : Option Nat)
    (hs : ∀ n, s = some n → 1 ≤ n) (hc : ∀ n, c = some n → 1 ≤ n) :
    exact_threshold (track_number_match s c) =
      if s.isSome ∧ c.isSome ∧ s = c then (0.4 : ℚ) else 0.75 := by
  by_cases h : s.isSome ∧ c.isSome ∧ s = c
  · rw [if_pos h, (track_number_match_iff s c hs hc).mpr h]
    rfl
  · have hb : track_number_match s c = false := by
      cases hb : track_number_match s c
      · rfl
      · exact absurd ((track_number_match_iff s c hs hc).mp hb) h
    rw [if_neg h, hb]
    rfl

theorem isPrefixOf_iff_append (needle : List Char) :
    ∀ l, needle.isPrefixOf l = true ↔ ∃ q, l = needle ++ q := by
  induction needle with
  | nil =>
    intro l
    simp [List.isPrefixOf]
  | cons a n ih =>
    intro l
    cases l with
    | nil => simp [List.isPrefixOf]
    | cons b l =>
      simp only [List.isPrefixOf, Bool.and_eq_true, beq_iff_eq, ih, List.cons_append,
        List.cons.injEq]
      constructor
      · rintro ⟨rfl, q, rfl⟩
        exact ⟨q, rfl, rfl⟩
      · rintro ⟨q, rfl, rfl⟩
        exact ⟨rfl, q, rfl⟩

theorem containsSub_iff (needle : List Char) :
    ∀ l, containsSub needle l = true ↔ ∃ p q, l = p ++ needle ++ q := by
  intro l
  induction l with
  | nil =>
    simp only [containsSub, beq_iff_eq]
    constructor
    · rintro rfl
      exact ⟨[], [], rfl⟩
    · rintro ⟨p, q, h⟩
      rcases List.append_eq_nil.mp (List.append_eq_nil.mp h.symm).1 with ⟨-, h2⟩
      exact h2
  | cons c l ih =>
    simp only [containsSub, Bool.or_eq_true, isPrefixOf_iff_append, ih]
    constructor
    · rintro (⟨q, hq⟩ | ⟨p, q, hp⟩)
      · exact ⟨[], q, by simpa using hq⟩
      · exact ⟨c :: p, q, by simp [hp]⟩
    · rintro ⟨p, q, hp⟩
      cases p with
      | nil =>
        exact Or.inl ⟨q, by simpa using hp⟩
      | cons x p =>
        have : c = x ∧ l = p ++ needle ++ q := by
          simpa using hp
        exact Or.inr ⟨p, q, this.2⟩

theorem hasVersionWord_iff (s : String) :
    hasVersionWord s = true ↔
      ∃ w ∈ version_words, ∃ p q, pyLower s.toList = p ++ w.toList ++ q := by
  unfold hasVersionWord
  rw [List.any_eq_true]
  constructor <;> rintro ⟨w, hw, h⟩
  · exact ⟨w, hw, (containsSub_iff _ _).mp h⟩
  · exact ⟨w, hw, (containsSub_iff _ _).mpr h⟩

theorem classify_exact_fields (src : SourceMeta) (t : RawTrack) {e : ExactCand}
    (h : classify_candidate src t = .exact e) :
    e = { track := t
          similarity := exact_similarity src t
          duration_diff := duration_diff src.duration_ms t.duration_ms
          album_match := album_match src.album t.album
          missing_data_penalty := missing_penalty_val t.album
          track_number_match := track_number_match src.track_number t.track_number } := by
  have hc := (classify_exact_iff src t h).1
  rw [classify_exact_val src t hc] at h
  injection h with h'
  exact h'.symm

theorem classify_alt_fields (src : SourceMeta) (t : RawTrack) {a : AltCand}
    (h : classify_candidate src t = .alt a) :
    a = { track := t
          similarity := alt_similarity src t
          duration_diff := duration_diff src.duration_ms t.duration_ms
          version_penalty := version_penalty_val src.title t.title
          missing_data_penalty := missing_penalty_val t.album
          total_penalty := version_penalty_val src.title t.title +
            missing_penalty_val t.album } := by
  obtain ⟨hce, hca, -⟩ := classify_alt_iff src t h
  rw [classify_alt_val src t hce hca] at h
  injection h with h'
  exact h'.symm

/-- The pure classification content of claim C1, about the classification
expression alone (reachable only when the iteration does not raise). -/
theorem exact_classification_core (src : SourceMeta) (t : RawTrack)
    (hs : ∀ n, src.track_number = some n → 1 ≤ n)
    (hc : ∀ n, t.track_number = some n → 1 ≤ n) :
    ((∃ e, classify_candidate src t = .exact e) ↔
      ((if src.track_number.isSome ∧ t.track_number.isSome ∧
            src.track_number = t.track_number then (0.4 : ℚ) else 0.75) ≤
          exact_similarity src t ∧
        exact_duration_ok src.duration_ms t.duration_ms
          (track_number_match src.track_number t.track_number) = true)) ∧
    (∀ e, classify_candidate src t = .exact e →
      (e.album_match = true ↔
        (t.album ≠ "" ∧ ∃ a, src.album = some a ∧ a ≠ "" ∧
          strLower t.album = strLower a)) ∧
      e.missing_data_penalty =
        (if pyStrip t.album.toList = [] then (0.05 : ℚ) else 0) ∧
      (e.track_number_match = true ↔
        (src.track_number.isSome ∧ t.track_number.isSome ∧
          src.track_number = t.track_number))) := by
  have hthr := exact_threshold_eq src.track_number t.track_number hs hc
  constructor
  · constructor
    · rintro ⟨e, he⟩
      have hcond := (classify_exact_iff src t he).1
      unfold exact_cond at hcond
      rw [Bool.and_eq_true, decide_eq_true_eq] at hcond
      exact ⟨hthr ▸ hcond.1, hcond.2⟩
    · rintro ⟨h1, h2⟩
      have hcond : exact_cond src t = true := by
        unfold exact_cond
        rw [Bool.and_eq_true, decide_eq_true_eq, hthr]
        exact ⟨h1, h2⟩
      exact ⟨_, classify_exact_val src t hcond⟩
  · intro e he
    rw [classify_exact_fields src t he]
    refine ⟨album_match_iff src.album t.album, ?_,
      track_number_match_iff src.track_number t.track_number hs hc⟩
    show missing_penalty_val t.album = _
    unfold missing_penalty_val isBlank
    by_cases hb : pyStrip t.album.toList = []
    · have hbb : (pyStrip t.album.toList == []) = true := by simpa using hb
      rw [hbb, if_pos rfl, if_pos hb]
    · have hbb : (pyStrip t.album.toList == []) = false := by simpa using hb
      rw [hbb, if_neg hb]
      simp

/-- C1 (amended): for every candidate whose loop iteration completes (no
UnboundLocalError from the debug print at the top of the loop body),
classification is exact iff the exact similarity reaches the threshold
(0.4 with a track-number match, 0.75 otherwise) and the exact duration
check passes; the emitted candidate carries the album match flag (candidate
and source albums nonempty and case-insensitively equal), the missing-album
penalty (0.05 when the candidate album is empty or whitespace-only, else 0)
and the track-number match flag.  Track numbers are assumed ≥ 1 when
present, as the data model states. -/
theorem C1_exact_classification (src : SourceMeta) (t : RawTrack) (tolBound : Bool)
    (hs : ∀ n, src.track_number = some n → 1 ≤ n)
    (hc : ∀ n, t.track_number = some n → 1 ≤ n)
    (hrun : classify_step src t tolBound ≠ none) :
    ((∃ e tb, classify_step src t tolBound = some (.exact e, tb)) ↔
      ((if src.track_number.isSome ∧ t.track_number.isSome ∧
            src.track_number = t.track_number then (0.4 : ℚ) else 0.75) ≤
          exact_similarity src t ∧
        exact_duration_ok src.duration_ms t.duration_ms
          (track_number_match src.track_number t.track_number) = true)) ∧
    (∀ e tb, classify_step src t tolBound = some (.exact e, tb) →
      (e.album_match = true ↔
        (t.album ≠ "" ∧ ∃ a, src.album = some a ∧ a ≠ "" ∧
          strLower t.album = strLower a)) ∧
      e.missing_data_penalty =
        (if pyStrip t.album.toList = [] then (0.05 : ℚ) else 0) ∧
      (e.track_number_match = true ↔
        (src.track_number.isSome ∧ t.track_number.isSome ∧
          src.track_number = t.track_number))) := by
  have hstep := classify_step_of_run src t tolBound hrun
  have hcore := exact_classification_core src t hs hc
  constructor
  · rw [hstep]
    constructor
    · rintro ⟨e, tb, hh⟩
      injection hh with hh'
      injection hh' with h1 h2
      exact hcore.1.mp ⟨e, h1⟩
    · intro hcond
      obtain ⟨e, he⟩ := hcore.1.mpr hcond
      exact ⟨e, tolBound || duration_gate src.duration_ms t.duration_ms, by rw [he]⟩
  · intro e tb hh
    rw [hstep] at hh
    injection hh with hh'
    injection hh' with h1 h2
    exact hcore.2 e h1

/-- C1 counterexample: (i) with both durations present the iteration
completes, and a candidate whose album is the whitespace-only string " " is
classified exact with missing_album_penalty 0.05, although its album is not
the empty string — the claim's "0.05 if candidate.album is empty else 0"
predicts 0; (ii) the same pair without durations never reaches
classification at all: the iteration raises UnboundLocalError, against the
claim's "for every candidate processed by the classifier". -/
theorem C1_counterexample :
    classify_step ⟨"hello world", "", some 200000, none, none⟩
        ⟨"hello world", "", " ", "u", some 200000, none⟩ false =
      some (classify_candidate ⟨"hello world", "", some 200000, none, none⟩
        ⟨"hello world", "", " ", "u", some 200000, none⟩, true) ∧
    (exact_of (classify_candidate ⟨"hello world", "", some 200000, none, none⟩
        ⟨"hello world", "", " ", "u", some 200000, none⟩)).map
      (fun e => e.missing_data_penalty) = some (0.05 : ℚ) ∧
    (" " : String) ≠ "" ∧
    classify_step ⟨"hello world", "", none, none, none⟩
        ⟨"hello world", "", " ", "u", none, none⟩ false = none := by
  refine ⟨rfl, ?_, by decide, rfl⟩
  have hsim : exact_similarity ⟨"hello world", "", some 200000, none, none⟩
      ⟨"hello world", "", " ", "u", some 200000, none⟩ = 1 := by
    unfold exact_similarity
    exact subset_similarity_one _ _ (by decide) (by decide)
  have hcond : exact_cond ⟨"hello world", "", some 200000, none, none⟩
      ⟨"hello world", "", " ", "u", some 200000, none⟩ = true := by
    unfold exact_cond
    rw [hsim]
    norm_num [track_number_match, truthyNat, exact_threshold, exact_duration_ok,
      duration_gate, duration_diff, Nat.dist]
  rw [classify_exact_val _ _ hcond]
  rfl

theorem C1_witness :
    (∃ e tb, classify_step ⟨"blue sky", "band", some 100000, none, none⟩
        ⟨"blue sky", "band", "", "u", some 100000, none⟩ false =
      some (.exact e, tb)) := by
  have hsim : exact_similarity ⟨"blue sky", "band", some 100000, none, none⟩
      ⟨"blue sky", "band", "", "u", some 100000, none⟩ = 1 := by
    unfold exact_similarity
    exact subset_similarity_one _ _ (by decide) (by decide)
  refine (C1_exact_classification _ _ false (fun n h => Option.noConfusion h)
      (fun n h => Option.noConfusion h)
      (fun hnone => Option.noConfusion
        ((classify_step_eq_some _ _ _ (by decide)).symm.trans hnone))).1.mpr
    ⟨?_, ?_⟩
  · rw [if_neg (by simp), hsim]
    norm_num
  · decide

/-- The pure classification content of claim C4, about the classification
expression alone (reachable only when the iteration does not raise). -/
theorem alt_classification_core (src : SourceMeta) (t : RawTrack)
    (h : exact_cond src t = false) :
    ((∃ a, classify_candidate src t = .alt a) ↔
      ((0.5 : ℚ) ≤ alt_similarity src t ∧
        alt_duration_ok src.duration_ms t.duration_ms = true)) ∧
    (∀ a, classify_candidate src t = .alt a →
      (((∃ w ∈ version_words, ∃ p q, pyLower t.title.toList = p ++ w.toList ++ q) ∧
          ¬(∃ w ∈ version_words, ∃ p q, pyLower src.title.toList = p ++ w.toList ++ q)) →
        a.version_penalty = 0.1) ∧
      (¬((∃ w ∈ version_words, ∃ p q, pyLower t.title.toList = p ++ w.toList ++ q) ∧
          ¬(∃ w ∈ version_words, ∃ p q, pyLower src.title.toList = p ++ w.toList ++ q)) →
        a.version_penalty = 0) ∧
      a.missing_data_penalty =
        (if pyStrip t.album.toList = [] then (0.05 : ℚ) else 0) ∧
      a.total_penalty = a.version_penalty + a.missing_data_penalty) ∧
    (¬((0.5 : ℚ) ≤ alt_similarity src t ∧
        alt_duration_ok src.duration_ms t.duration_ms = true) →
      classify_candidate src t = .rejected) := by
  have hiff : alt_cond src t = true ↔
      ((0.5 : ℚ) ≤ alt_similarity src t ∧
        alt_duration_ok src.duration_ms t.duration_ms = true) := by
    unfold alt_cond
    rw [Bool.and_eq_true, decide_eq_true_eq]
  refine ⟨?_, ?_, ?_⟩
  · constructor
    · rintro ⟨a, ha⟩
      exact hiff.mp (classify_alt_iff src t ha).2.1
    · intro hcond
      exact ⟨_, classify_alt_val src t h (hiff.mpr hcond)⟩
  · intro a ha
    rw [classify_alt_fields src t ha]
    refine ⟨?_, ?_, ?_, rfl⟩
    · intro hcondv
      show version_penalty_val src.title t.title = 0.1
      unfold version_penalty_val
      have h1 : hasVersionWord t.title = true :=
        (hasVersionWord_iff t.title).mpr hcondv.1
      have h2 : hasVersionWord src.title = false := by
        cases hh : hasVersionWord src.title
        · rfl
        · exact absurd ((hasVersionWord_iff src.title).mp hh) hcondv.2
      rw [h1, h2]
      rfl
    · intro hcondv
      show version_penalty_val src.title t.title = 0
      unfold version_penalty_val
      by_cases h1 : hasVersionWord t.title = true
      · have hB : hasVersionWord src.title = true := by
          by_contra hB
          have hB' : hasVersionWord src.title = false := by simpa using hB
          refine hcondv ⟨(hasVersionWord_iff t.title).mp h1, fun hx => ?_⟩
          rw [(hasVersionWord_iff src.title).mpr hx] at hB'
          exact Bool.noConfusion hB'
        rw [h1, hB]
        rfl
      · have h1' : hasVersionWord t.title = false := by simpa using h1
        rw [h1']
        rfl
    · show missing_penalty_val t.album = _
      unfold missing_penalty_val isBlank
      by_cases hb : pyStrip t.album.toList = []
      · have hbb : (pyStrip t.album.toList == []) = true := by simpa using hb
        rw [hbb, if_pos rfl, if_pos hb]
      · have hbb : (pyStrip t.album.toList == []) = false := by simpa using hb
        rw [hbb, if_neg hb]
        simp
  · intro hncond
    have halt : alt_cond src t = false := by
      cases hh : alt_cond src t
      · rfl
      · exact absurd (hiff.mp hh) hncond
    exact classify_rejected_val src t h halt

/-- C4 (amended): for every candidate whose loop iteration completes (no
UnboundLocalError) and that is not classified exact, classification is
alternative iff its alt similarity is at least 0.5 and the alt duration
check passes; the emitted alternative carries versionPenalty 0.1 exactly
when the candidate title contains a version word
(live/remix/cover/acoustic/demo) as a case-insensitive substring and the
source title does not, the missing-album penalty 0.05 exactly when the
candidate album is blank, and their sum as total penalty; candidates
meeting neither classification are rejected. -/
theorem C4_alternative_classification (src : SourceMeta) (t : RawTrack) (tolBound : Bool)
    (h : exact_cond src t = false)
    (hrun : classify_step src t tolBound ≠ none) :
    ((∃ a tb, classify_step src t tolBound = some (.alt a, tb)) ↔
      ((0.5 : ℚ) ≤ alt_similarity src t ∧
        alt_duration_ok src.duration_ms t.duration_ms = true)) ∧
    (∀ a tb, classify_step src t tolBound = some (.alt a, tb) →
      (((∃ w ∈ version_words, ∃ p q, pyLower t.title.toList = p ++ w.toList ++ q) ∧
          ¬(∃ w ∈ version_words, ∃ p q, pyLower src.title.toList = p ++ w.toList ++ q)) →
        a.version_penalty = 0.1) ∧
      (¬((∃ w ∈ version_words, ∃ p q, pyLower t.title.toList = p ++ w.toList ++ q) ∧
          ¬(∃ w ∈ version_words, ∃ p q, pyLower src.title.toList = p ++ w.toList ++ q)) →
        a.version_penalty = 0) ∧
      a.missing_data_penalty =
        (if pyStrip t.album.toList = [] then (0.05 : ℚ) else 0) ∧
      a.total_penalty = a.version_penalty + a.missing_data_penalty) ∧
    (¬((0.5 : ℚ) ≤ alt_similarity src t ∧
        alt_duration_ok src.duration_ms t.duration_ms = true) →
      ∃ tb, classify_step src t tolBound = some (.rejected, tb)) := by
  have hstep := classify_step_of_run src t tolBound hrun
  have hcore := alt_classification_core src t h
  refine ⟨?_, ?_, ?_⟩
  · rw [hstep]
    constructor
    · rintro ⟨a, tb, hh⟩
      injection hh with hh'
      injection hh' with h1 h2
      exact hcore.1.mp ⟨a, h1⟩
    · intro hcond
      obtain ⟨a, ha⟩ := hcore.1.mpr hcond
      exact ⟨a, tolBound || duration_gate src.duration_ms t.duration_ms, by rw [ha]⟩
  · intro a tb hh
    rw [hstep] at hh
    injection hh with hh'
    injection hh' with h1 h2
    exact hcore.2.1 a h1
  · intro hncond
    have hrej := hcore.2.2 hncond
    exact ⟨tolBound || duration_gate src.duration_ms t.duration_ms,
      by rw [hstep, hrej]⟩

/-- C4 counterexample: the spec's own scenario — candidate "yellow live" vs
source "yellow", alt similarity 2/3 ≥ 0.5, alt duration check passing, not
an exact match — but with no durations on either side the iteration raises
UnboundLocalError before any classification happens: the candidate is not
classified alternative (or anything else), against the claim's universal
"every candidate that is not classified exact". -/
theorem C4_counterexample :
    (0.5 : ℚ) ≤ alt_similarity ⟨"yellow", "coldplay", none, none, none⟩
        ⟨"yellow live", "coldplay", "", "u", none, none⟩ ∧
    alt_duration_ok none none = true ∧
    exact_cond ⟨"yellow", "coldplay", none, none, none⟩
        ⟨"yellow live", "coldplay", "", "u", none, none⟩ = false ∧
    classify_step ⟨"yellow", "coldplay", none, none, none⟩
        ⟨"yellow live", "coldplay", "", "u", none, none⟩ false = none := by
  have hB : (candidate_alt_tokens ⟨"yellow live", "coldplay", "", "u", none, none⟩).card
      = 3 := by decide
  have hBA : ((candidate_alt_tokens ⟨"yellow live", "coldplay", "", "u", none, none⟩) ∩
      (source_alt_tokens ⟨"yellow", "coldplay", none, none, none⟩)).card = 2 := by decide
  have hsim : alt_similarity ⟨"yellow", "coldplay", none, none, none⟩
      ⟨"yellow live", "coldplay", "", "u", none, none⟩ = 2 / 3 := by
    unfold alt_similarity
    rw [subset_similarity_formula _ _ (by decide), hBA, hB]
    norm_num
  have hBe : (candidate_exact_tokens ⟨"yellow live", "coldplay", "", "u", none, none⟩).card
      = 3 := by decide
  have hBAe : ((candidate_exact_tokens ⟨"yellow live", "coldplay", "", "u", none, none⟩) ∩
      (source_exact_tokens ⟨"yellow", "coldplay", none, none, none⟩)).card = 2 := by decide
  have hsime : exact_similarity ⟨"yellow", "coldplay", none, none, none⟩
      ⟨"yellow live", "coldplay", "", "u", none, none⟩ = 2 / 3 := by
    unfold exact_similarity
    rw [subset_similarity_formula _ _ (by decide), hBAe, hBe]
    norm_num
  have hex : exact_cond ⟨"yellow", "coldplay", none, none, none⟩
      ⟨"yellow live", "coldplay", "", "u", none, none⟩ = false := by
    unfold exact_cond
    rw [hsime]
    norm_num [track_number_match, truthyNat, exact_threshold, exact_duration_ok,
      duration_gate]
  exact ⟨by rw [hsim]; norm_num, rfl, hex, rfl⟩

theorem C4_witness :
    (∃ a tb, classify_step ⟨"yellow parachutes", "coldplay", some 200000, none, none⟩
        ⟨"yellow", "coldplay", "", "u", some 190000, none⟩ false =
      some (.alt a, tb)) := by
  have hsim : alt_similarity ⟨"yellow parachutes", "coldplay", some 200000, none, none⟩
      ⟨"yellow", "coldplay", "", "u", some 190000, none⟩ = 1 := by
    unfold alt_similarity
    exact subset_similarity_one _ _ (by decide) (by decide)
  have hex : exact_cond ⟨"yellow parachutes", "coldplay", some 200000, none, none⟩
      ⟨"yellow", "coldplay", "", "u", some 190000, none⟩ = false := by
    norm_num [exact_cond, exact_duration_ok, duration_gate, truthyNat, duration_diff,
      track_number_match, Nat.dist]
  refine (C4_alternative_classification _ _ false hex
      (fun hnone => Option.noConfusion
        ((classify_step_eq_some _ _ _ (by decide)).symm.trans hnone))).1.mpr ⟨?_, ?_⟩
  · rw [hsim]
    norm_num
  · decide

/-- C7: `find_equivalent_links` has no guard for malformed source metadata.
Called with an empty title (artist "dd ee ff") and matching durations (so
that no iteration raises), it still runs similarity scoring: the candidate
"dd ee" scores 1.0 against the artist-only token set and the call returns
links = \x7b"spotify": "u1"\x7d with no alternatives, where the claim
requires empty links and empty alternatives. -/
theorem C7_no_source_guard :
    find_equivalent_links "" "dd ee ff"
        [⟨"dd ee", "", "", "u1", some 200000, none⟩] [] []
        (some 200000) none none =
      some ([("spotify", "u1")], []) := by
  have hsim : exact_similarity ⟨"", "dd ee ff", some 200000, none, none⟩
      ⟨"dd ee", "", "", "u1", some 200000, none⟩ = 1 := by
    unfold exact_similarity
    exact subset_similarity_one _ _ (by decide) (by decide)
  have hcond : exact_cond ⟨"", "dd ee ff", some 200000, none, none⟩
      ⟨"dd ee", "", "", "u1", some 200000, none⟩ = true := by
    unfold exact_cond
    rw [hsim]
    norm_num [track_number_match, truthyNat, exact_threshold, exact_duration_ok,
      duration_gate, duration_diff, Nat.dist]
  have hclass := classify_exact_val _ _ hcond
  have hpc := process_candidates_gate_head ⟨"", "dd ee ff", some 200000, none, none⟩
      ⟨"dd ee", "", "", "u1", some 200000, none⟩ [] (by decide)
  have h1 : process_candidates ⟨"", "dd ee ff", some 200000, none, none⟩
      [⟨"dd ee", "", "", "u1", some 200000, none⟩] ≠ none := by
    rw [hpc]
    exact fun hh => Option.noConfusion hh
  have hemp : process_candidates ⟨"", "dd ee ff", some 200000, none, none⟩
      ([] : List RawTrack) = some ([], []) := rfl
  have h2 : process_candidates ⟨"", "dd ee ff", some 200000, none, none⟩
      ([] : List RawTrack) ≠ none := by
    rw [hemp]
    exact fun hh => Option.noConfusion hh
  have hpl : provider_link ⟨"", "dd ee ff", some 200000, none, none⟩
      [⟨"dd ee", "", "", "u1", some 200000, none⟩] = some "u1" := by
    unfold provider_link
    rw [classify_all_cons, hclass]
    rfl
  have hpa : provider_alts ⟨"", "dd ee ff", some 200000, none, none⟩ "spotify"
      [⟨"dd ee", "", "", "u1", some 200000, none⟩] = none := by
    unfold provider_alts
    rw [classify_all_cons, hclass]
    rfl
  simp only [find_equivalent_links]
  rw [process_results_eq _ _ _ _ _ h1, hpl, hpa]
  simp only [Option.some_bind]
  rw [process_results_eq _ _ _ _ _ h2, provider_link_nil, provider_alts_nil]
  simp only [Option.some_bind]
  rw [process_results_eq _ _ _ _ _ h2, provider_link_nil, provider_alts_nil]
  rfl

